import Mathlib

/-!
Verification of the nsi-aura ultimate Requester Agent core against its
natural-language specification.  The Python sources are shallowly embedded:
pure Python functions become Lean functions, fallible code returns
`Except`/`Option`, database tables become lists of row structures passed
explicitly, and the handlers' transaction/enqueue behaviour is recorded in
explicit effect lists.
-/

/-- States of the per-reservation connection state machine.

Modelled from the spec: the current `aura/fsm.py` (class
`ConnectionStateMachine`) is missing from the source snapshot.  The `fsm.py`
that is present is a stale earlier revision whose event set
(`ConnectionReserveAborted`, `gui_reserve_retry`, no release path) is
contradicted by every caller in the snapshot: `aura/job.py` calls
`connection_error`, `aura/frontend/nsi.py` calls
`nsi_receive_release_confirmed` and `nsi_receive_data_plane_down`,
`aura/frontend/reservations.py` calls `nsi_send_release` and
`nsi_send_terminate`, `aura/vlan.py` reads `active_state_values` - none of
which exist in that stale file.  The sixteen states below are the state
enumeration of spec section 4.2. -/
inductive ConnectionState where
  | ConnectionNew
  | ConnectionReserveChecking
  | ConnectionReserveHeld
  | ConnectionReserveFailed
  | ConnectionReserveTimeout
  | ConnectionReserveCommitting
  | ConnectionReserveCommitted
  | ConnectionProvisioning
  | ConnectionProvisioned
  | ConnectionActive
  | ConnectionReleasing
  | ConnectionReleased
  | ConnectionFailed
  | ConnectionTerminating
  | ConnectionTerminated
  | ConnectionDeleted
  deriving DecidableEq, Repr, Fintype

/-- Events of the connection state machine (user commands, protocol callbacks
and the local transport-failure event).  Modelled from the spec, section 4.2,
for the reason given on `ConnectionState`. -/
inductive CsmEvent where
  | nsi_send_reserve
  | nsi_receive_reserve_confirmed
  | nsi_receive_reserve_failed
  | connection_error
  | nsi_receive_reserve_timeout
  | nsi_send_reserve_commit
  | nsi_receive_reserve_commit_confirmed
  | nsi_send_provision
  | nsi_receive_provision_confirmed
  | nsi_receive_data_plane_up
  | nsi_send_release
  | nsi_receive_release_confirmed
  | nsi_receive_data_plane_down
  | nsi_receive_error_event
  | nsi_send_terminate
  | nsi_receive_terminate_confirmed
  | gui_delete_connection
  deriving DecidableEq, Repr, Fintype

/-- The transition table of the connection state machine: `some t` when
`(event, from) → t` is a legal edge, `none` otherwise.  Modelled from the
spec, section 4.2, for the reason given on `ConnectionState`. -/
def transitionTarget (s : ConnectionState) (e : CsmEvent) : Option ConnectionState :=
  match e, s with
  | .nsi_send_reserve, .ConnectionNew => some .ConnectionReserveChecking
  | .nsi_send_reserve, .ConnectionReserveFailed => some .ConnectionReserveChecking
  | .nsi_send_reserve, .ConnectionTerminated => some .ConnectionReserveChecking
  | .nsi_receive_reserve_confirmed, .ConnectionReserveChecking => some .ConnectionReserveHeld
  | .nsi_receive_reserve_failed, .ConnectionReserveChecking => some .ConnectionReserveFailed
  | .connection_error, .ConnectionReserveChecking => some .ConnectionReserveFailed
  | .nsi_receive_reserve_timeout, .ConnectionReserveHeld => some .ConnectionReserveTimeout
  | .nsi_send_reserve_commit, .ConnectionReserveHeld => some .ConnectionReserveCommitting
  | .nsi_receive_reserve_commit_confirmed, .ConnectionReserveCommitting => some .ConnectionReserveCommitted
  | .nsi_send_provision, .ConnectionReserveCommitted => some .ConnectionProvisioning
  | .nsi_receive_provision_confirmed, .ConnectionProvisioning => some .ConnectionProvisioned
  | .nsi_receive_data_plane_up, .ConnectionProvisioned => some .ConnectionActive
  | .nsi_send_release, .ConnectionActive => some .ConnectionReleasing
  | .nsi_receive_release_confirmed, .ConnectionReleasing => some .ConnectionReleased
  | .nsi_receive_data_plane_down, .ConnectionReleased => some .ConnectionReserveCommitted
  | .nsi_receive_error_event, .ConnectionActive => some .ConnectionFailed
  | .nsi_receive_error_event, .ConnectionProvisioned => some .ConnectionFailed
  | .nsi_send_terminate, .ConnectionReserveTimeout => some .ConnectionTerminating
  | .nsi_send_terminate, .ConnectionReserveCommitted => some .ConnectionTerminating
  | .nsi_send_terminate, .ConnectionFailed => some .ConnectionTerminating
  | .nsi_send_terminate, .ConnectionReserveFailed => some .ConnectionTerminating
  | .nsi_receive_terminate_confirmed, .ConnectionTerminating => some .ConnectionTerminated
  | .gui_delete_connection, .ConnectionTerminated => some .ConnectionDeleted
  | _, _ => none

/-- The typed error raised by the state machine when an event is applied in a
state that is not a source state of that event (python-statemachine's
`TransitionNotAllowed`). -/
inductive TransitionError where
  | transitionNotAllowed (e : CsmEvent) (s : ConnectionState)
  deriving DecidableEq, Repr

/-- Applying an event to the current state: the new state on a legal edge, the
typed `TransitionNotAllowed` error otherwise.  The machine is a pure function
of `(currentState, event)` and owns no side effects. -/
def applyEvent (s : ConnectionState) (e : CsmEvent) : Except TransitionError ConnectionState :=
  match transitionTarget s e with
  | some t => .ok t
  | none => .error (.transitionNotAllowed e s)

/-- The `dataPlaneStatus` member of a `querySummarySync` connection-states
snapshot (`aura/frontend/util.py`, argument of `to_aura_connection_state`). -/
structure DataPlaneStatus where
  active : String
  deriving DecidableEq, Repr

/-- The `connectionStates` snapshot returned by `querySummarySync`
(`aura/frontend/util.py`, argument of `to_aura_connection_state`). -/
structure NsiConnectionStates where
  reservationState : String
  provisionState : String
  lifecycleState : String
  dataPlaneStatus : DataPlaneStatus
  deriving DecidableEq, Repr

/-- Result of `to_aura_connection_state`: a state of the local machine, or the
initial "UNKNOWN" sentinel (also left in place by the two TODO branches of the
source). -/
inductive AuraConnectionState where
  | UNKNOWN
  | state (s : ConnectionState)
  deriving DecidableEq, Repr

/-- Embedding of `to_aura_connection_state` (aura/frontend/util.py, lines
134-180): the if/elif chain mapping an NSI connection-states snapshot to the
local connection state.  Where the source assigns
`ConnectionStateMachine.X.value` we return the state `X` itself. -/
def to_aura_connection_state (n : NsiConnectionStates) : AuraConnectionState :=
  if n.lifecycleState = "Terminated" then .state .ConnectionTerminated
  else if n.lifecycleState = "Terminating" then .state .ConnectionTerminating
  else if n.lifecycleState = "Failed" then .state .ConnectionFailed
  else if n.lifecycleState = "PassedEndTime" then .UNKNOWN
  else if n.reservationState = "ReserveChecking" then .state .ConnectionReserveChecking
  else if n.reservationState = "ReserveHeld" then .state .ConnectionReserveHeld
  else if n.reservationState = "ReserveCommitting" then .state .ConnectionReserveCommitting
  else if n.reservationState = "ReserveFailed" then .state .ConnectionReserveFailed
  else if n.reservationState = "ReserveTimeout" then .state .ConnectionReserveTimeout
  else if n.reservationState = "ReserveAborting" then .UNKNOWN
  else if n.provisionState = "Provisioning" then .state .ConnectionProvisioning
  else if n.provisionState = "Releasing" then .state .ConnectionReleasing
  else if n.provisionState = "Provisioned" ∧ n.dataPlaneStatus.active = "true" then
    .state .ConnectionActive
  else if n.provisionState = "Provisioned" ∧ n.dataPlaneStatus.active = "false" then
    .state .ConnectionProvisioned
  else if n.provisionState = "Released" ∧ n.dataPlaneStatus.active = "true" then
    .state .ConnectionReleased
  else if n.provisionState = "Released" ∧ n.dataPlaneStatus.active = "false" then
    .state .ConnectionReserveCommitted
  else .UNKNOWN

/-- Job kinds of the dispatcher: one per outbound NSI message (`aura/job.py`). -/
inductive JobKind where
  | nsi_send_reserve_job
  | nsi_send_reserve_commit_job
  | nsi_send_provision_job
  | nsi_send_release_job
  | nsi_send_terminate_job
  deriving DecidableEq, Repr

/-- Observable side effects of a request handler, in order of occurrence:
committing the surrounding database transaction (`with Session.begin()`
exiting normally), enqueueing a dispatcher job (`scheduler.add_job`), and
performing an outbound network call.  The handlers of
`aura/frontend/reservations.py` and `aura/frontend/nsi.py` never perform an
outbound call themselves; outbound SOAP happens only inside dispatcher jobs. -/
inductive CallerEffect where
  | txnCommit
  | enqueueJob (k : JobKind)
  | outboundCall (k : JobKind)
  deriving DecidableEq, Repr

/-- A row of the `reservation` table, restricted to the columns the embedded
fragments read or write (`aura/model.py`, class `Reservation`; the `state`
column holds a declared state of the machine, UUID columns are modelled as
naturals drawn from a counter). -/
structure ReservationRow where
  id : Nat
  correlationId : Nat
  globalReservationId : Nat
  connectionId : Option Nat
  sourceStpId : Nat
  destStpId : Nat
  sourceVlan : Nat
  destVlan : Nat
  state : ConnectionState
  deriving DecidableEq, Repr

/-- `session.query(Reservation).filter(Reservation.id == rid)` returning the
first match. -/
def findReservation (db : List ReservationRow) (rid : Nat) : Option ReservationRow :=
  db.find? (fun r => r.id = rid)

/-- Persist a new state on the reservation with the given id. -/
def updateReservation (db : List ReservationRow) (rid : Nat) (t : ConnectionState) :
    List ReservationRow :=
  db.map (fun r => if r.id = rid then { r with state := t } else r)

/-- Outcome of a GUI command handler: the database after the transaction, the
effect list, and the HTTP-level result. -/
inductive HandlerResult where
  | ok
  | httpError (status : Nat) (err : TransitionError)
  | noResultFound
  deriving DecidableEq, Repr

/-- Database, ordered effects and result of one GUI command handler run. -/
structure HandlerOutcome where
  db : List ReservationRow
  effects : List CallerEffect
  result : HandlerResult
  deriving DecidableEq, Repr

/-- Embedding of the GUI command handlers `reservation_terminate`,
`reservation_release` and `reservation_provision`
(`aura/frontend/reservations.py`, lines 445-492), which share one shape:
inside `with Session.begin()` load the reservation and apply the event to a
machine re-hydrated from its row; on `TransitionNotAllowed` the transaction
rolls back and HTTP 500 carries the error text; otherwise the transaction
commits and only then is the dispatcher job enqueued.  `reservation_post`
(lines 181-207) has the same commit-then-enqueue shape for
`nsi_send_reserve`. -/
def guiCommandHandler (db : List ReservationRow) (rid : Nat) (e : CsmEvent) (k : JobKind) :
    HandlerOutcome :=
  match findReservation db rid with
  | none => ⟨db, [], .noResultFound⟩
  | some r =>
    match applyEvent r.state e with
    | .error err => ⟨db, [], .httpError 500 err⟩
    | .ok t => ⟨updateReservation db rid t, [.txnCommit, .enqueueJob k], .ok⟩

/-- The SOAPAction values routed by the callback endpoint
(`aura/frontend/nsi.py`, `nsi_callback`).  `dataPlaneStateChange` carries the
`dataPlaneStatus.active` string from the body. -/
inductive SoapAction where
  | reserveFailed
  | reserveTimeout
  | reserveConfirmed
  | reserveCommitConfirmed
  | provisionConfirmed
  | releaseConfirmed
  | terminateConfirmed
  | dataPlaneStateChange (active : String)
  | errorEvent
  | unknownAction
  deriving DecidableEq, Repr

/-- The state-machine events applied by `nsi_callback` for a SOAPAction, in
order (`reserveConfirmed` and `reserveCommitConfirmed` chain a second send
event after the receive event). -/
def callbackEvents : SoapAction → List CsmEvent
  | .reserveFailed => [.nsi_receive_reserve_failed]
  | .reserveTimeout => [.nsi_receive_reserve_timeout]
  | .reserveConfirmed => [.nsi_receive_reserve_confirmed, .nsi_send_reserve_commit]
  | .reserveCommitConfirmed => [.nsi_receive_reserve_commit_confirmed, .nsi_send_provision]
  | .provisionConfirmed => [.nsi_receive_provision_confirmed]
  | .releaseConfirmed => [.nsi_receive_release_confirmed]
  | .terminateConfirmed => [.nsi_receive_terminate_confirmed]
  | .dataPlaneStateChange active =>
    if active = "true" then [.nsi_receive_data_plane_up] else [.nsi_receive_data_plane_down]
  | .errorEvent => [.nsi_receive_error_event]
  | .unknownAction => []

/-- The dispatcher job `nsi_callback` enqueues after the transaction commits
(only `reserveConfirmed` and `reserveCommitConfirmed` have one). -/
def callbackFollowUpJob : SoapAction → Option JobKind
  | .reserveConfirmed => some .nsi_send_reserve_commit_job
  | .reserveCommitConfirmed => some .nsi_send_provision_job
  | _ => none

/-- An inbound SOAP callback message: its action, the correlationId of the
SOAP header and the connectionId of the body. -/
structure CallbackMessage where
  action : SoapAction
  correlationId : Nat
  connectionId : Nat
  deriving DecidableEq, Repr

/-- Reservation lookup of `nsi_callback`: `errorEvent`, `dataPlaneStateChange`
and `reserveTimeout` are keyed by the body's connectionId, every other action
by the header's correlationId. -/
def callbackFindReservation (db : List ReservationRow) (msg : CallbackMessage) :
    Option ReservationRow :=
  match msg.action with
  | .errorEvent => db.find? (fun r => r.connectionId = some msg.connectionId)
  | .dataPlaneStateChange _ => db.find? (fun r => r.connectionId = some msg.connectionId)
  | .reserveTimeout => db.find? (fun r => r.connectionId = some msg.connectionId)
  | _ => db.find? (fun r => r.correlationId = msg.correlationId)

/-- HTTP result of the callback endpoint: the SOAP acknowledgement, the
`UnboundLocalError` escaping when `reservation_id` was never assigned, or the
`NoResultFound` of `.one()`. -/
inductive CallbackResult where
  | ack
  | unboundLocalError
  | noResultFound
  deriving DecidableEq, Repr

/-- Database, ordered effects and result of one callback handler run. -/
structure CallbackOutcome where
  db : List ReservationRow
  effects : List CallerEffect
  result : CallbackResult
  deriving DecidableEq, Repr

/-- Apply a list of events in order; stop at the first refused event,
returning the state reached so far together with the typed error. -/
def applyEvents (s : ConnectionState) : List CsmEvent → ConnectionState × Option TransitionError
  | [] => (s, none)
  | e :: es =>
    match applyEvent s e with
    | .ok t => applyEvents t es
    | .error err => (s, some err)

/-- Embedding of `nsi_callback` (`aura/frontend/nsi.py`, lines 36-121): look
the reservation up, apply the action's events inside `with Session.begin()`;
a `TransitionNotAllowed` is caught and logged inside the transaction, so the
transaction still commits (with whatever state was reached) but
`reservation_id` stays unbound, which makes the post-commit `add_job` match
raise `UnboundLocalError` for the two actions that have a follow-up job; when
no error occurred the follow-up job is enqueued after the commit and the SOAP
acknowledgement is returned. -/
def nsi_callback (db : List ReservationRow) (msg : CallbackMessage) : CallbackOutcome :=
  match callbackFindReservation db msg with
  | none => ⟨db, [], .noResultFound⟩
  | some r =>
    match applyEvents r.state (callbackEvents msg.action) with
    | (t, some _) =>
      match callbackFollowUpJob msg.action with
      | some _ => ⟨updateReservation db r.id t, [.txnCommit], .unboundLocalError⟩
      | none => ⟨updateReservation db r.id t, [.txnCommit], .ack⟩
    | (t, none) =>
      match callbackFollowUpJob msg.action with
      | some k => ⟨updateReservation db r.id t, [.txnCommit, .enqueueJob k], .ack⟩
      | none => ⟨updateReservation db r.id t, [.txnCommit], .ack⟩

/-- The columns of an STP as carried by a fresh topology parse
(`aura/model.py`, class `STP`, without the surrogate key).  Modelled from the
spec for one column: the snapshot's `model.py` predates the `active` column
that `aura/dds.py` reads and writes (`STP.active`, `new_stp.active`,
`existing_stp.active`); spec section 3 declares it, so it is included. -/
structure StpData where
  stpId : String
  inboundPort : Option String
  outboundPort : Option String
  inboundAlias : Option String
  outboundAlias : Option String
  vlanRange : String
  description : Option String
  active : Bool
  deriving DecidableEq, Repr

/-- A persisted row of the `stp` table: the STP columns plus the surrogate
primary key. -/
structure StpRow extends StpData where
  id : Nat
  deriving DecidableEq, Repr

/-- The `stp` table together with the key counter that hands out surrogate
ids on insert. -/
structure StpTable where
  rows : List StpRow
  nextId : Nat
  deriving DecidableEq, Repr

/-- The update branch of `update_stps` (`aura/dds.py`, lines 125-141): when
any of the six compared columns differs the row is rewritten with the fresh
values, otherwise it is left alone.  `description` is neither compared nor
updated. -/
def updateStpRow (r : StpRow) (new : StpData) : StpRow :=
  if r.inboundPort ≠ new.inboundPort ∨ r.outboundPort ≠ new.outboundPort ∨
      r.inboundAlias ≠ new.inboundAlias ∨ r.outboundAlias ≠ new.outboundAlias ∨
      r.vlanRange ≠ new.vlanRange ∨ r.active ≠ new.active then
    { r with inboundPort := new.inboundPort, outboundPort := new.outboundPort,
             inboundAlias := new.inboundAlias, outboundAlias := new.outboundAlias,
             vlanRange := new.vlanRange, active := new.active }
  else r

/-- One `with Session.begin()` transaction of the first loop of `update_stps`
(`aura/dds.py`, lines 109-141): insert the STP when its `stpId` is not in the
table yet, otherwise update the existing row (`one_or_none` assumes at most
one row per `stpId`; the theorems below carry that uniqueness as a
hypothesis). -/
def processStp (t : StpTable) (new : StpData) : StpTable :=
  if t.rows.any (fun r => r.stpId == new.stpId) then
    { t with rows := t.rows.map (fun r => if r.stpId == new.stpId then updateStpRow r new else r) }
  else
    { rows := t.rows ++ [{ new with id := t.nextId }], nextId := t.nextId + 1 }

/-- The closing transaction of `update_stps` (`aura/dds.py`, lines 142-148):
every previously-active `stpId` that is absent from the fresh list is marked
inactive (soft delete); no row is ever removed. -/
def deactivateVanishedStps (rows : List StpRow) (freshIds : List String) : List StpRow :=
  rows.map (fun r => if r.active && !freshIds.contains r.stpId then { r with active := false } else r)

/-- Embedding of `update_stps` (`aura/dds.py`, lines 107-148): reconcile the
`stp` table with the STPs of a fresh DDS topology snapshot. -/
def update_stps (t : StpTable) (stps : List StpData) : StpTable :=
  let t1 := stps.foldl processStp t
  { t1 with rows := deactivateVanishedStps t1.rows (stps.map (fun s => s.stpId)) }

/-- A persisted row of the `sdp` table (`aura/model.py`, class `SDP`; the
`active` column is spec-modelled exactly as for `StpData`). -/
structure SdpRow where
  id : Nat
  stpAId : Nat
  stpZId : Nat
  vlanRange : String
  description : Option String
  active : Bool
  deriving DecidableEq, Repr

/-- The `sdp` table together with its surrogate-key counter. -/
structure SdpTable where
  rows : List SdpRow
  nextId : Nat
  deriving DecidableEq, Repr

/-- `has_alias` (`aura/dds.py`, lines 151-152). -/
def has_alias (stp : StpRow) : Bool :=
  stp.inboundAlias.isSome && stp.outboundAlias.isSome

/-- `is_sdp` (`aura/dds.py`, lines 158-166): two STPs that mutually alias
each other (Python `==` on optional strings coincides with `BEq` on
`Option String`). -/
def is_sdp (a z : StpRow) : Bool :=
  has_alias a && has_alias z &&
    (a.inboundAlias == z.outboundPort) && (a.outboundAlias == z.inboundPort) &&
    (z.inboundAlias == a.outboundPort) && (z.outboundAlias == a.inboundPort)

/-- The inner `for z in stps` loop of `update_sdps` (`aura/dds.py`, lines
172-176) with its CPython iterator semantics: the iterator yields `lst[k]`
and advances its counter; on a match `stps.remove(z)` deletes the first
element equal to `z` (`List.erase`), so the element that followed `z` is
skipped by the iterator.  The fuel argument bounds the number of iterator
steps; the wrapper passes the list length, which suffices because the counter
grows by one per step while the length never grows. -/
def sdpInnerLoop (a : StpRow) : Nat → List StpRow → Nat → List (StpRow × StpRow) →
    List StpRow × List (StpRow × StpRow)
  | 0, lst, _, acc => (lst, acc)
  | n + 1, lst, k, acc =>
    if h : k < lst.length then
      let z := lst[k]
      if is_sdp a z then sdpInnerLoop a n (lst.erase z) (k + 1) (acc ++ [(a, z)])
      else sdpInnerLoop a n lst (k + 1) acc
    else (lst, acc)

/-- The outer `for a in stps` loop of `update_sdps` (`aura/dds.py`, lines
172-176): both loops iterate over the same shared list, which the inner loop
mutates. -/
def sdpOuterLoop : Nat → List StpRow → Nat → List (StpRow × StpRow) → List (StpRow × StpRow)
  | 0, _, _, acc => acc
  | n + 1, lst, i, acc =>
    if h : i < lst.length then
      let res := sdpInnerLoop lst[i] lst.length lst 0 acc
      sdpOuterLoop n res.1 (i + 1) res.2
    else acc

/-- The SDP pairs `update_sdps` finds among the active STPs. -/
def findSdpPairs (stps : List StpRow) : List (StpRow × StpRow) :=
  sdpOuterLoop stps.length stps 0 []

/-- The description string built for an SDP,
`f"{stp_a.description} <-> {stp_z.description}"` (a Python f-string renders
`None` as the string "None"). -/
def sdpDescription (a z : StpRow) : Option String :=
  some ((a.description.getD "None") ++ " <-> " ++ (z.description.getD "None"))

/-- One transaction of the per-pair loop of `update_sdps` (`aura/dds.py`,
lines 178-204): look the pair up by the ordered key `(stpAId, stpZId)`;
insert a fresh active row when absent, refresh `vlanRange` and re-activate
when present but different, and leave it alone otherwise. -/
def processSdp (t : SdpTable) (p : StpRow × StpRow) : SdpTable :=
  match t.rows.find? (fun s => s.stpAId == p.1.id && s.stpZId == p.2.id) with
  | none =>
    { rows := t.rows ++ [⟨t.nextId, p.1.id, p.2.id, p.1.vlanRange, sdpDescription p.1 p.2, true⟩],
      nextId := t.nextId + 1 }
  | some existing =>
    if existing.vlanRange != p.1.vlanRange || !existing.active then
      { t with rows := t.rows.map (fun s =>
          if s.id == existing.id then { s with vlanRange := p.1.vlanRange, active := true } else s) }
    else t

/-- The two ids of an SDP pair sorted ascending (`sorted([a.id, z.id])`). -/
def sortedIdPair (x y : Nat) : Nat × Nat :=
  if x ≤ y then (x, y) else (y, x)

/-- The soft-delete pass of `update_sdps` (`aura/dds.py`, lines 205-213),
embedded with the semantics the Python line actually has: the filter
expression `SDP.stpAId == stpA.id and SDP.stpZId == stpA.id` chains two
SQLAlchemy comparisons with Python `and`; `bool` of the first
`BinaryExpression` compares the hashes of its operands (a column object and
an integer), which is false, so `and` yields its FIRST operand and the
executed statement is `UPDATE sdp SET active=false WHERE sdp."stpAId" = ?`
with `?` = `stpA.id`, the smaller id of the vanished sorted pair.  The second
comparison (itself written with `stpA` on both sides instead of `stpZ`) is
discarded.  (The two `.one()` STP lookups of the source only feed the log
line and this id.) -/
def deactivateVanishedSdps (rows : List SdpRow) (freshPairs : List (Nat × Nat)) : List SdpRow :=
  let existing := (rows.filter (fun s => s.active)).map (fun s => sortedIdPair s.stpAId s.stpZId)
  let vanished := existing.filter (fun pq => !freshPairs.contains pq)
  vanished.foldl (fun acc pq =>
    acc.map (fun s => if s.stpAId == pq.1 then { s with active := false } else s)) rows

/-- Embedding of `update_sdps` (`aura/dds.py`, lines 155-213): pair up the
active STPs that mutually alias each other, reconcile each pair against the
`sdp` table, and soft-delete the active SDP rows whose pair vanished. -/
def update_sdps (stpT : StpTable) (t : SdpTable) : SdpTable :=
  let stps := stpT.rows.filter (fun s => s.active)
  let sdps := findSdpPairs stps
  let t1 := sdps.foldl processSdp t
  let freshPairs := sdps.map (fun p => sortedIdPair p.1.id p.2.id)
  { t1 with rows := deactivateVanishedSdps t1.rows freshPairs }

/-- The mime type of DDS topology documents (`aura/dds.py`, line 30). -/
def TOPOLOGY_MIME_TYPE : String := "vnd.ogf.nsi.topology.v2+xml"

/-- The mime type of DDS discovery documents (`aura/dds.py`, line 29). -/
def DISCOVERY_MIME_TYPE : String := "vnd.ogf.nsi.nsa.v1+xml"

/-- The exception classes that can escape the topology poll
(`zlib.error` from `unzip`, an XML syntax error from `nsi_xml_to_dict`,
`KeyError` from indexing the documents dict with an unknown mime type). -/
inductive PollError where
  | decompressionError
  | xmlParseError
  | keyError
  deriving DecidableEq, Repr

/-- The structural content of one decompressed topology document, abstracted
to what the poll observes of it: `missingKeys` when `topology_to_stps`
(`aura/dds.py`, lines 53-64) hits a `KeyError` looking up its mandatory keys
- that document is skipped with a warning and yields no STPs - and otherwise
the list of STPs the document describes. -/
inductive TopoDoc where
  | missingKeys
  | good (stps : List StpData)
  deriving DecidableEq, Repr

/-- Raw bytes of one decompressed document: either malformed XML (on which
`nsi_xml_to_dict` raises) or a parsed topology dict. -/
inductive TopoXml where
  | parseFail
  | parsed (doc : TopoDoc)
  deriving DecidableEq, Repr

/-- The base64+gzip payload of one `<document>` of the DDS index: `unzip`
(`aura/dds.py`, lines 216-218) either raises `zlib.error` or yields the
document bytes. -/
inductive DdsPayload where
  | corrupt
  | zipped (doc : TopoXml)
  deriving DecidableEq, Repr

/-- One `<document>` element of the DDS index. -/
structure DdsDocument where
  typ : String
  docId : String
  payload : DdsPayload
  deriving DecidableEq, Repr

/-- The DDS index body: malformed XML or its document list. -/
inductive DdsIndexXml where
  | parseFail
  | documents (docs : List DdsDocument)
  deriving DecidableEq, Repr

/-- The transport-level outcome `nsi_util_get_xml` (`aura/nsi.py`, lines
585-618) distinguishes: a `requests` ConnectionError, a non-200 status and a
content type other than application/xml all make it return `None`; otherwise
it returns the body. -/
inductive FetchXmlResult where
  | connectionError
  | non200
  | wrongContentType
  | content (index : DdsIndexXml)
  deriving DecidableEq, Repr

/-- Embedding of `nsi_util_get_xml`: `None` on every transport failure, the
body otherwise. -/
def nsi_util_get_xml : FetchXmlResult → Option DdsIndexXml
  | .connectionError => none
  | .non200 => none
  | .wrongContentType => none
  | .content x => some x

/-- Embedding of `unzip` (`aura/dds.py`, lines 216-218). -/
def unzip : DdsPayload → Except PollError TopoXml
  | .corrupt => .error .decompressionError
  | .zipped doc => .ok doc

/-- Embedding of `nsi_xml_to_dict` (`aura/nsi.py`, lines 804-806) applied to
a topology document: raises on malformed XML. -/
def nsi_xml_to_dict : TopoXml → Except PollError TopoDoc
  | .parseFail => .error .xmlParseError
  | .parsed d => .ok d

/-- Embedding of `topology_to_stps` (`aura/dds.py`, lines 53-104) at the
granularity the poll observes: a document whose mandatory keys are missing is
skipped (empty list) after a warning; otherwise its STPs are emitted. -/
def topology_to_stps : TopoDoc → List StpData
  | .missingKeys => []
  | .good stps => stps

/-- Embedding of `get_dds_documents` (`aura/dds.py`, lines 221-243): when
`nsi_util_get_xml` returned `None` the empty documents dict is returned
(no error is raised); otherwise the index is parsed (raising on malformed
XML) and every document - of both mime types - is decompressed (raising on a
corrupt payload) and filed under its type and id (an unknown type raises
`KeyError` against the two-key dict). -/
def get_dds_documents (fetch : FetchXmlResult) :
    Except PollError (List (String × String × TopoXml)) :=
  match nsi_util_get_xml fetch with
  | none => .ok []
  | some .parseFail => .error .xmlParseError
  | some (.documents docs) =>
    docs.mapM (fun d =>
      if d.typ == TOPOLOGY_MIME_TYPE || d.typ == DISCOVERY_MIME_TYPE then
        (unzip d.payload).map (fun x => (d.typ, d.docId, x))
      else .error .keyError)

/-- Embedding of `nsi_poll_dds_job` (`aura/job.py`, lines 55-61): fetch the
documents, parse every topology document into STPs, then reconcile the STP
and SDP tables.  Any `PollError` escapes before the first database write. -/
def nsi_poll_dds_job (fetch : FetchXmlResult) (stpTable : StpTable) (sdpTable : SdpTable) :
    Except PollError (StpTable × SdpTable) := do
  let documents ← get_dds_documents fetch
  let topo := documents.filter (fun d => d.1 == TOPOLOGY_MIME_TYPE)
  let dicts ← topo.mapM (fun d => nsi_xml_to_dict d.2.2)
  let stps := (dicts.map topology_to_stps).flatten
  let newStpTable := update_stps stpTable stps
  pure (newStpTable, update_sdps newStpTable sdpTable)

/-- A fresh-UUID source, modelled as a counter: each `uuid4()` call yields
the current value and advances. -/
structure UuidGen where
  next : Nat
  deriving DecidableEq, Repr

/-- One observable step of the reserve flow, in order of occurrence: a
transaction commit (numbered in commit order) writing the given reservation
snapshot, a dispatcher job enqueue, or the outbound SOAP POST carrying a
correlationId. -/
inductive FlowStep where
  | commit (txn : Nat) (snapshot : ReservationRow)
  | enqueue (k : JobKind)
  | send (k : JobKind) (correlationId : Nat)
  deriving DecidableEq, Repr

/-- Embedding of `reservation_post` (`aura/frontend/reservations.py`, lines
181-207): build the reservation with `globalReservationId=uuid4()` and
`correlationId=uuid4()` and state `ConnectionNew`; inside one transaction add
it, flush (assigning `rid`) and apply `nsi_send_reserve`; after the commit
enqueue `nsi_send_reserve_job`.  Returns the committed row, the advanced
UUID source and the step trace. -/
def reservation_post (g : UuidGen) (rid txn sourceStpId destStpId sourceVlan destVlan : Nat) :
    ReservationRow × UuidGen × List FlowStep :=
  let r0 : ReservationRow :=
    ⟨rid, g.next + 1, g.next, none, sourceStpId, destStpId, sourceVlan, destVlan, .ConnectionNew⟩
  match applyEvent r0.state .nsi_send_reserve with
  | .ok t =>
    ({ r0 with state := t }, ⟨g.next + 2⟩,
      [.commit txn { r0 with state := t }, .enqueue .nsi_send_reserve_job])
  | .error _ => (r0, ⟨g.next + 2⟩, [])

/-- Embedding of `new_correlation_id_on_reservation` (`aura/job.py`, lines
49-52): a `with Session.begin()` transaction of its own that persists a fresh
correlationId on the reservation. -/
def new_correlation_id_on_reservation (r : ReservationRow) (g : UuidGen) :
    ReservationRow × UuidGen :=
  ({ r with correlationId := g.next }, ⟨g.next + 1⟩)

/-- The shape shared by the five send jobs of `aura/job.py`
(`nsi_send_reserve_job`, `nsi_send_reserve_commit_job`,
`nsi_send_provision_job`, `nsi_send_release_job`, `nsi_send_terminate_job`):
first `new_correlation_id_on_reservation` commits in a transaction of its
own, then the outbound NSI call is made carrying
`reservation.correlationId`. -/
def nsi_send_job (k : JobKind) (r : ReservationRow) (g : UuidGen) (txn : Nat) :
    ReservationRow × UuidGen × List FlowStep :=
  let minted := new_correlation_id_on_reservation r g
  (minted.1, minted.2, [.commit txn minted.1, .send k minted.1.correlationId])

/-- The `ValueError` of `VlanRanges.__init__`/`expand_ranges` and the
`KeyError` of `set.remove` inside `VlanRanges.__sub__`. -/
inductive VlanError where
  | valueError
  | keyError
  deriving DecidableEq, Repr

/-- Insertion into a sorted duplicate-free list of VLAN ids.

Modelled from the spec: `aura/functional.py` (`expand_ranges`, `to_ranges`)
is imported by `aura/vlan.py` but missing from the snapshot.  Per the
docstrings quoted in `aura/vlan.py` (lines 81-84), `expand_ranges(vlans,
inclusive=True)` expands the one/two element inner sequences into the
deduplicated *sorted* list of individual VLANs (a `set` that is then
`sorted`), and `to_ranges` regroups such a list into consecutive ranges.
The growing set-then-sort is embedded as repeated sorted insertion. -/
def sortedInsert (x : Nat) : List Nat → List Nat
  | [] => [x]
  | y :: ys => if x < y then x :: y :: ys else if x = y then y :: ys else y :: sortedInsert x ys

/-- One inner sequence of the intermediate format: a single VLAN, an
inclusive range, or a `ValueError` for any other length (see `sortedInsert`
for provenance). -/
def expandRange (acc : List Nat) : List Nat → Except VlanError (List Nat)
  | [a] => .ok (sortedInsert a acc)
  | [a, b] => .ok ((List.range' a (b + 1 - a)).foldl (fun l v => sortedInsert v l) acc)
  | _ => .error .valueError

/-- The accumulating loop of `expand_ranges` over the intermediate-format
entries (see `sortedInsert` for provenance). -/
def expandRangesGo (acc : List Nat) : List (List Nat) → Except VlanError (List Nat)
  | [] => .ok acc
  | r :: rs =>
    match expandRange acc r with
    | .ok acc1 => expandRangesGo acc1 rs
    | .error e => .error e

/-- `expand_ranges(vlans, inclusive=True)` (see `sortedInsert` for
provenance): a range with start above stop contributes nothing, exactly as
Python's empty `range`. -/
def expand_ranges (vlans : List (List Nat)) : Except VlanError (List Nat) :=
  expandRangesGo [] vlans

/-- The run-collecting loop of `to_ranges` (see `sortedInsert` for
provenance): extend the current run `[start..cur]` while the next value is
`cur + 1`. -/
def toRangesGo (start cur : Nat) : List Nat → List (Nat × Nat)
  | [] => [(start, cur)]
  | y :: ys => if y = cur + 1 then toRangesGo start y ys else (start, cur) :: toRangesGo y y ys

/-- `to_ranges` over a sorted duplicate-free list, producing inclusive
`(start, stop)` pairs - the representation `VlanRanges.to_list_of_tuples`
exposes (`aura/vlan.py`, lines 115-131). -/
def to_ranges : List Nat → List (Nat × Nat)
  | [] => []
  | x :: xs => toRangesGo x x xs

/-- `VlanRanges` (`aura/vlan.py`, class VlanRanges): the canonical tuple of
ranges, stored as the inclusive pairs of `to_list_of_tuples`. -/
structure VlanRanges where
  ranges : List (Nat × Nat)
  deriving DecidableEq, Repr

/-- The tail of `VlanRanges.__init__` (`aura/vlan.py`, lines 109-113): expand
the intermediate format, reject when the sorted result leaves `[0, 4096]`
(the lower test is vacuous here because the VLAN paths of this code can never
feed `int()` a minus sign - the `-` is always consumed as range separator
first), and regroup into ranges. -/
def vlanRangesOfVlans (vlans : List (List Nat)) : Except VlanError VlanRanges := do
  let er ← expand_ranges vlans
  if er ≠ [] ∧ ¬(0 ≤ er.headD 0 ∧ er.getLastD 0 ≤ 4096) then .error .valueError
  else .ok ⟨to_ranges er⟩

/-- `__contains__` (`aura/vlan.py`, lines 133-135): membership in any stored
range, bounds inclusive. -/
def vlanMem (v : VlanRanges) (n : Nat) : Bool :=
  v.ranges.any (fun p => p.1 ≤ n && n ≤ p.2)

/-- `__iter__` (`aura/vlan.py`, lines 137-144): every VLAN, in storage
order. -/
def vlanValues (v : VlanRanges) : List Nat :=
  (v.ranges.map (fun p => List.range' p.1 (p.2 + 1 - p.1))).flatten

/-- Python whitespace as stripped by `str.strip` and `int` (ASCII subset). -/
def isPySpace (c : Char) : Bool :=
  c = ' ' || c = '\t' || c = '\n' || c = '\r' || c = '\x0B' || c = '\x0C'

/-- `str.strip()` on a list of characters. -/
def stripChars (s : List Char) : List Char :=
  ((s.dropWhile isPySpace).reverse.dropWhile isPySpace).reverse

/-- Numeric value of a decimal digit character. -/
def digitVal (c : Char) : Nat := c.toNat - '0'.toNat

/-- The digit tail of a Python integer literal: further digits, with single
underscores allowed between digits (`int("1_0") == 10`). -/
def pyDigitsGo (acc : Nat) : List Char → Option Nat
  | [] => some acc
  | c :: rest =>
    if c = '_' then
      match rest with
      | c2 :: rest2 => if c2.isDigit then pyDigitsGo (acc * 10 + digitVal c2) rest2 else none
      | [] => none
    else if c.isDigit then pyDigitsGo (acc * 10 + digitVal c) rest else none

/-- Embedding of Python `int()` as reachable from the VLAN paths: optional
surrounding whitespace, an optional plus sign, then ASCII digits with
underscores.  A minus sign can never reach `int()` here because `-` is
consumed as the range separator by `split("-")` first, so the result is a
natural number. -/
def pyInt (s : List Char) : Option Nat :=
  let t := stripChars s
  let t1 := match t with
    | c :: r => if c = '+' then r else c :: r
    | [] => []
  match t1 with
  | c :: rest => if c.isDigit then pyDigitsGo (digitVal c) rest else none
  | [] => none

/-- Decimal rendering of a natural number (Python `str` on a nonnegative
int).  The fuel argument only drives the recursion; the wrapper passes
`n + 1`, which always suffices since the rendered value shrinks ten-fold per
step. -/
def natCharsAux : Nat → Nat → List Char
  | 0, _ => []
  | fuel + 1, n =>
    if n < 10 then [Char.ofNat (48 + n)]
    else natCharsAux fuel (n / 10) ++ [Char.ofNat (48 + n % 10)]

/-- Decimal rendering of a natural number. -/
def natChars (n : Nat) : List Char := natCharsAux (n + 1) n

/-- One comma-separated piece of the `VlanRanges` input string:
`list(map(int, s.strip().split("-")))` (`aura/vlan.py`, line 93). -/
def parsePiece (p : List Char) : Option (List Nat) :=
  ((stripChars p).splitOn '-').mapM pyInt

/-- The string branch of `VlanRanges.__init__` (`aura/vlan.py`, lines 89-95
with 109-113): an all-whitespace string yields the empty `VlanRanges`;
otherwise the string splits on commas, every piece is parsed into the
intermediate format (a failing `int()` raises the `ValueError`), and the
result is normalized and bound-checked. -/
def vlanRangesOfString (s : List Char) : Except VlanError VlanRanges :=
  if stripChars s = [] then .ok ⟨[]⟩
  else
    match (s.splitOn ',').mapM parsePiece with
    | none => .error .valueError
    | some vlans => vlanRangesOfVlans vlans

/-- `__str__` (`aura/vlan.py`, lines 156-168): a singleton range renders as
its value, every other as `start-stop` (inclusive), joined by commas. -/
def vlanRangesStr (v : VlanRanges) : List Char :=
  List.intercalate [','] (v.ranges.map (fun p =>
    if p.1 = p.2 then natChars p.1 else natChars p.1 ++ '-' :: natChars p.2))

/-- `__sub__` with an `int` right operand (`aura/vlan.py`, lines 191-204):
`set(self)` minus the value via `set.remove`, which raises `KeyError` when
the value is not a member; the survivors are rebuilt through the iterable
branch of `__init__` (`[[x] for x in val]`). -/
def vlanRangesSubInt (v : VlanRanges) (n : Nat) : Except VlanError VlanRanges :=
  if vlanMem v n then
    vlanRangesOfVlans (((vlanValues v).filter (fun x => x ≠ n)).map (fun x => [x]))
  else .error .keyError

/-- `__sub__` with a set right operand (`aura/vlan.py`, line 204):
`VlanRanges(set(self) - set(other))`, total in the right operand. -/
def vlanRangesSubSet (v w : VlanRanges) : Except VlanError VlanRanges :=
  vlanRangesOfVlans (((vlanValues v).filter (fun x => !vlanMem w x)).map (fun x => [x]))

/-- The set of VLAN ids an intermediate-format entry denotes: a singleton, an
inclusive range, or nothing for the lengths `expand_ranges` rejects. -/
def vlansSpecMem (r : List Nat) (m : Nat) : Prop :=
  match r with
  | [a] => m = a
  | [a, b] => a ≤ m ∧ m ≤ b
  | _ => False

/-- The canonical-form invariant `VlanRanges.__init__` establishes: each pair
is a nonempty inclusive range and consecutive pairs are separated by a gap
(so the rendering is unambiguous). -/
def vlanCanonical (v : VlanRanges) : Prop :=
  (∀ p ∈ v.ranges, p.1 ≤ p.2) ∧ v.ranges.Chain' (fun p q => p.2 + 1 < q.1)

/-- `ConnectionStateMachine.active_state_values` - the states that reserve
resources.  Modelled from the spec, section 4.5: the attribute is read by
`aura/vlan.py` but defined in the missing current `fsm.py`; the spec defines
it as every declared state except New, ReserveFailed, ReserveTimeout,
Terminated and Deleted. -/
def active_state_values : List ConnectionState :=
  [.ConnectionReserveChecking, .ConnectionReserveHeld, .ConnectionReserveCommitting,
   .ConnectionReserveCommitted, .ConnectionProvisioning, .ConnectionProvisioned,
   .ConnectionActive, .ConnectionReleasing, .ConnectionReleased, .ConnectionFailed,
   .ConnectionTerminating]

/-- `all_vlan_ranges` (`aura/vlan.py`, lines 257-260): the STP's `vlanRange`
column parsed into a `VlanRanges` (`.scalar()` of a missing row yields
`None`, hence the empty `VlanRanges`). -/
def all_vlan_ranges (stps : List StpRow) (stpId : Nat) : Except VlanError VlanRanges :=
  match stps.find? (fun s => s.id == stpId) with
  | none => .ok ⟨[]⟩
  | some stp => vlanRangesOfString stp.vlanRange.toList

/-- The VLAN ids feeding `in_use_vlan_ranges` (`aura/vlan.py`, lines
263-278): source VLANs of reservations with this STP as source plus
destination VLANs of those with it as destination, restricted to reservation
states in `active_state_values`. -/
def in_use_vlans (db : List ReservationRow) (stpId : Nat) : List Nat :=
  ((db.filter
      (fun r => r.sourceStpId == stpId && active_state_values.contains r.state)).map
    (fun r => r.sourceVlan)) ++
  ((db.filter
      (fun r => r.destStpId == stpId && active_state_values.contains r.state)).map
    (fun r => r.destVlan))

/-- `in_use_vlan_ranges` (`aura/vlan.py`, lines 273-278): the in-use VLAN ids
packed into a `VlanRanges` (the `Sequence[int]` branch of `__init__`). -/
def in_use_vlan_ranges (db : List ReservationRow) (stpId : Nat) :
    Except VlanError VlanRanges :=
  vlanRangesOfVlans ((in_use_vlans db stpId).map (fun x => [x]))

/-- `free_vlan_ranges` (`aura/vlan.py`, lines 281-286): start from the STP's
full range and subtract every in-use VLAN that is still a member - the
membership guard keeps `__sub__` from raising its `KeyError`. -/
def freeVlanFold (free : VlanRanges) : List Nat → Except VlanError VlanRanges
  | [] => .ok free
  | vlan :: rest =>
    if vlanMem free vlan then
      match vlanRangesSubInt free vlan with
      | .ok f1 => freeVlanFold f1 rest
      | .error e => .error e
    else freeVlanFold free rest

/-- `free_vlan_ranges` continued: iterate the guarded subtraction over the
in-use VLANs (`for vlan in in_use_vlan_ranges(stpId)` iterates the
`VlanRanges` through `__iter__`). -/
def free_vlan_ranges (stps : List StpRow) (db : List ReservationRow) (stpId : Nat) :
    Except VlanError VlanRanges := do
  let free ← all_vlan_ranges stps stpId
  let inUse ← in_use_vlan_ranges db stpId
  freeVlanFold free (vlanValues inUse)

/-- One entry of the 422 rejection detail of the reservation form
(`{"type": ..., "loc": [...], "msg": ...}`). -/
structure FormErrorItem where
  typ : String
  loc : String
  msg : List Char
  deriving DecidableEq, Repr

/-- The `HTTPException(status_code=422, detail={"form": ...})` raised by the
form validator. -/
structure HttpValidationError where
  status : Nat
  form : List FormErrorItem
  deriving DecidableEq, Repr

/-- `ValidatedBaseModel.free_vlan_on_stp` (`aura/frontend/reservations.py`,
lines 80-91): reject the form with a 422 whose messages list the free set
(`f"free VLANs: {free_vlans}"` renders through `__str__`) when the source or
destination VLAN is not free on the chosen STP.  The outer `Except` carries
the `VlanRanges` machinery's own error channel. -/
def free_vlan_on_stp (stps : List StpRow) (db : List ReservationRow)
    (sourceSTP destSTP sourceVlan destVlan : Nat) :
    Except VlanError (Except HttpValidationError Unit) := do
  let freeSrc ← free_vlan_ranges stps db sourceSTP
  let freeDst ← free_vlan_ranges stps db destSTP
  let form :=
    (if !vlanMem freeSrc sourceVlan then
      [(⟨"invalid_vlan", "sourceVlan", "free VLANs: ".toList ++ vlanRangesStr freeSrc⟩ :
        FormErrorItem)]
     else []) ++
    (if !vlanMem freeDst destVlan then
      [(⟨"invalid_vlan", "destVlan", "free VLANs: ".toList ++ vlanRangesStr freeDst⟩ :
        FormErrorItem)]
     else [])
  if form ≠ [] then pure (.error ⟨422, form⟩) else pure (.ok ())

/-- Claim C2: `nsi_send_reserve` is legal exactly from `ConnectionNew`,
`ConnectionReserveFailed` and `ConnectionTerminated`, and from each of them
leads to `ConnectionReserveChecking`; after `nsi_receive_reserve_failed` has
driven `ConnectionReserveChecking` to `ConnectionReserveFailed`, re-sending
reserve transitions the reservation back to `ConnectionReserveChecking`. -/
theorem C2_send_reserve_edges :
    (∀ s : ConnectionState,
      transitionTarget s .nsi_send_reserve = some .ConnectionReserveChecking ↔
        (s = .ConnectionNew ∨ s = .ConnectionReserveFailed ∨ s = .ConnectionTerminated)) ∧
    (∀ s t : ConnectionState, transitionTarget s .nsi_send_reserve = some t →
        t = .ConnectionReserveChecking) ∧
    applyEvent .ConnectionReserveChecking .nsi_receive_reserve_failed =
      .ok .ConnectionReserveFailed ∧
    applyEvent .ConnectionReserveFailed .nsi_send_reserve =
      .ok .ConnectionReserveChecking := by
  refine ⟨by decide, by decide, rfl, rfl⟩

/-- A row update that rewrites the state of row `r` to `r.state` leaves the
table unchanged (row ids are unique, as the primary key makes them). -/
theorem updateReservation_state_self (db : List ReservationRow) (r : ReservationRow)
    (hnd : (db.map ReservationRow.id).Nodup) (hr : r ∈ db) :
    updateReservation db r.id r.state = db := by
  unfold updateReservation
  have hinj := List.inj_on_of_nodup_map hnd
  conv_rhs => rw [← List.map_id db]
  refine List.map_congr_left ?_
  intro x hx
  by_cases hxid : x.id = r.id
  · have hxr : x = r := hinj hx hr hxid
    subst hxr
    simp
  · simp [hxid]

/-- Claim C8: the querySummarySync snapshot mapping sends
`provisionState = Provisioned` with `dataPlaneStatus.active = "true"` (when no
earlier lifecycle/reservation branch matched) to `ConnectionActive`, and
`provisionState = Released` with `dataPlaneStatus.active = "false"` to
`ConnectionReserveCommitted`. -/
theorem C8_query_summary_state_mapping (n : NsiConnectionStates)
    (hl : n.lifecycleState ∉ (["Terminated", "Terminating", "Failed", "PassedEndTime"] : List String))
    (hr : n.reservationState ∉ (["ReserveChecking", "ReserveHeld", "ReserveCommitting",
        "ReserveFailed", "ReserveTimeout", "ReserveAborting"] : List String)) :
    (n.provisionState = "Provisioned" → n.dataPlaneStatus.active = "true" →
      to_aura_connection_state n = .state .ConnectionActive) ∧
    (n.provisionState = "Released" → n.dataPlaneStatus.active = "false" →
      to_aura_connection_state n = .state .ConnectionReserveCommitted) := by
  simp only [List.mem_cons, List.not_mem_nil, or_false, not_or] at hl hr
  obtain ⟨hl1, hl2, hl3, hl4⟩ := hl
  obtain ⟨hr1, hr2, hr3, hr4, hr5, hr6⟩ := hr
  constructor
  · intro hp ha
    simp [to_aura_connection_state, hl1, hl2, hl3, hl4, hr1, hr2, hr3, hr4, hr5, hr6, hp, ha]
  · intro hp ha
    simp [to_aura_connection_state, hl1, hl2, hl3, hl4, hr1, hr2, hr3, hr4, hr5, hr6, hp, ha]

/-- Witness for C8 at two concrete snapshots. -/
theorem C8_query_summary_state_mapping_witness :
    to_aura_connection_state ⟨"ReserveStart", "Provisioned", "Created", ⟨"true"⟩⟩ =
      .state .ConnectionActive ∧
    to_aura_connection_state ⟨"ReserveStart", "Released", "Created", ⟨"false"⟩⟩ =
      .state .ConnectionReserveCommitted :=
  ⟨(C8_query_summary_state_mapping ⟨"ReserveStart", "Provisioned", "Created", ⟨"true"⟩⟩
      (by decide) (by decide)).1 rfl rfl,
   (C8_query_summary_state_mapping ⟨"ReserveStart", "Released", "Created", ⟨"false"⟩⟩
      (by decide) (by decide)).2 rfl rfl⟩

/-- A reservation found by the callback lookup is a row of the table. -/
theorem callbackFindReservation_mem (db : List ReservationRow) (msg : CallbackMessage)
    (r : ReservationRow) (h : callbackFindReservation db msg = some r) : r ∈ db := by
  obtain ⟨act, mcorr, mconn⟩ := msg
  unfold callbackFindReservation at h
  cases act <;> exact List.mem_of_find?_eq_some h

/-- Claim C1: applying an event in a non-source state yields the typed
TransitionNotAllowed error, leaves every reservation row unchanged, and
enqueues no job and performs no outbound call - in the GUI command handlers
(HTTP 500 with the error) and in the callback handler (logged and swallowed,
transaction commits without a state change) alike.  When the edge is legal,
the handler's only effects are the transaction commit followed by the job
enqueue, in that order; the outbound call itself is never an effect of a
handler, and the machine `applyEvent` is a pure function with no effect
channel at all. -/
theorem C1_illegal_event_refused (db : List ReservationRow) (r : ReservationRow)
    (rid : Nat) (e : CsmEvent) (k : JobKind) (msg : CallbackMessage)
    (hnd : (db.map ReservationRow.id).Nodup) :
    (findReservation db rid = some r → transitionTarget r.state e = none →
      guiCommandHandler db rid e k =
        ⟨db, [], .httpError 500 (.transitionNotAllowed e r.state)⟩) ∧
    (findReservation db rid = some r → ∀ t, transitionTarget r.state e = some t →
      (guiCommandHandler db rid e k).effects = [.txnCommit, .enqueueJob k]) ∧
    (callbackFindReservation db msg = some r →
      ∀ e0 rest, callbackEvents msg.action = e0 :: rest →
      transitionTarget r.state e0 = none →
      (nsi_callback db msg).db = db ∧ (nsi_callback db msg).effects = [.txnCommit]) := by
  refine ⟨?_, ?_, ?_⟩
  · intro hf hnone
    simp [guiCommandHandler, hf, applyEvent, hnone]
  · intro hf t ht
    simp [guiCommandHandler, hf, applyEvent, ht]
  · intro hf e0 rest hev hnone
    have hmem : r ∈ db := callbackFindReservation_mem db msg r hf
    have hself := updateReservation_state_self db r hnd hmem
    cases hj : callbackFollowUpJob msg.action <;>
      simp [nsi_callback, hf, hev, applyEvents, applyEvent, hnone, hj, hself]

/-- Witness for C1: a reservation in `ConnectionNew` refuses both the GUI
provision command and a provisionConfirmed callback. -/
theorem C1_illegal_event_refused_witness :
    guiCommandHandler [⟨1, 7, 8, some 5, 1, 2, 100, 200, .ConnectionNew⟩] 1
        .nsi_send_provision .nsi_send_provision_job =
      ⟨[⟨1, 7, 8, some 5, 1, 2, 100, 200, .ConnectionNew⟩], [],
        .httpError 500 (.transitionNotAllowed .nsi_send_provision .ConnectionNew)⟩ ∧
    (nsi_callback [⟨1, 7, 8, some 5, 1, 2, 100, 200, .ConnectionNew⟩]
        ⟨.provisionConfirmed, 7, 5⟩).db =
      [⟨1, 7, 8, some 5, 1, 2, 100, 200, .ConnectionNew⟩] ∧
    (nsi_callback [⟨1, 7, 8, some 5, 1, 2, 100, 200, .ConnectionNew⟩]
        ⟨.provisionConfirmed, 7, 5⟩).effects = [.txnCommit] := by
  have h := C1_illegal_event_refused [⟨1, 7, 8, some 5, 1, 2, 100, 200, .ConnectionNew⟩]
    ⟨1, 7, 8, some 5, 1, 2, 100, 200, .ConnectionNew⟩ 1 .nsi_send_provision
    .nsi_send_provision_job ⟨.provisionConfirmed, 7, 5⟩ (by decide)
  have h3 := h.2.2 (by rfl) .nsi_receive_provision_confirmed [] (by rfl) (by rfl)
  exact ⟨h.1 (by rfl) (by rfl), h3.1, h3.2⟩

/-- `updateStpRow` never changes the `stpId` column. -/
theorem updateStpRow_stpId (r : StpRow) (new : StpData) :
    (updateStpRow r new).stpId = r.stpId := by
  unfold updateStpRow; split <;> rfl

/-- `updateStpRow` never changes the surrogate key. -/
theorem updateStpRow_id (r : StpRow) (new : StpData) : (updateStpRow r new).id = r.id := by
  unfold updateStpRow; split <;> rfl

/-- After `updateStpRow` the row carries the fresh `active` flag (also when
no column differed, for then the flags already agreed). -/
theorem updateStpRow_active (r : StpRow) (new : StpData) :
    (updateStpRow r new).active = new.active := by
  unfold updateStpRow
  split
  · rfl
  · rename_i h
    push_neg at h
    exact h.2.2.2.2.2

/-- The `stpId` column of the table after one `processStp` step. -/
theorem processStp_stpIds (t : StpTable) (new : StpData) :
    ((processStp t new).rows.map (fun r => r.stpId)) =
      if t.rows.any (fun r => r.stpId == new.stpId) then t.rows.map (fun r => r.stpId)
      else t.rows.map (fun r => r.stpId) ++ [new.stpId] := by
  unfold processStp
  split <;> rename_i hc
  · simp only [List.map_map]
    refine List.map_congr_left ?_
    intro r _
    by_cases hr : r.stpId == new.stpId <;> simp [Function.comp, hr, updateStpRow_stpId]
  · simp

/-- `processStp` keeps the `stpId` column duplicate-free. -/
theorem processStp_nodup (t : StpTable) (new : StpData)
    (h : (t.rows.map (fun r => r.stpId)).Nodup) :
    ((processStp t new).rows.map (fun r => r.stpId)).Nodup := by
  rw [processStp_stpIds]
  split <;> rename_i hc
  · exact h
  · rw [List.nodup_append]
    refine ⟨h, List.nodup_singleton _, ?_⟩
    intro s hs hs'
    simp only [List.mem_singleton] at hs'
    subst hs'
    simp only [List.mem_map] at hs
    obtain ⟨r, hr, hrs⟩ := hs
    rw [Bool.not_eq_true, List.any_eq_false] at hc
    exact absurd (by simpa using hrs) (by simpa using hc r hr)

/-- Every row survives one `processStp` step with its key and `stpId`. -/
theorem processStp_preserves_rows (t : StpTable) (new : StpData) :
    ∀ r ∈ t.rows, ∃ q ∈ (processStp t new).rows, q.id = r.id ∧ q.stpId = r.stpId := by
  intro r hr
  unfold processStp
  split
  · refine ⟨if r.stpId == new.stpId then updateStpRow r new else r,
      List.mem_map_of_mem _ hr, ?_, ?_⟩ <;>
      by_cases hc : r.stpId == new.stpId <;>
        simp [hc, updateStpRow_id, updateStpRow_stpId]
  · exact ⟨r, by simp [hr], rfl, rfl⟩

/-- Every row survives the whole first loop of `update_stps` with its key and
`stpId`. -/
theorem foldl_processStp_preserves_rows (stps : List StpData) :
    ∀ (t : StpTable) (r : StpRow), r ∈ t.rows →
      ∃ q ∈ (stps.foldl processStp t).rows, q.id = r.id ∧ q.stpId = r.stpId := by
  induction stps with
  | nil => exact fun t r hr => ⟨r, hr, rfl, rfl⟩
  | cons y ys ih =>
    intro t r hr
    obtain ⟨q, hq, hqid, hqstp⟩ := processStp_preserves_rows t y r hr
    obtain ⟨p, hp, hpid, hpstp⟩ := ih (processStp t y) q hq
    exact ⟨p, hp, by rw [hpid, hqid], by rw [hpstp, hqstp]⟩

/-- The first loop of `update_stps` keeps the `stpId` column duplicate-free. -/
theorem foldl_processStp_nodup (stps : List StpData) :
    ∀ t : StpTable, (t.rows.map (fun r => r.stpId)).Nodup →
      (((stps.foldl processStp t).rows.map (fun r => r.stpId))).Nodup := by
  induction stps with
  | nil => exact fun t h => h
  | cons y ys ih => exact fun t h => ih (processStp t y) (processStp_nodup t y h)

/-- After the update branch of `processStp`, the table holds exactly one
active row for the fresh `stpId` when the fresh record is active (and none
otherwise). -/
theorem countP_update_rows (new : StpData) :
    ∀ rows : List StpRow, (rows.map (fun r => r.stpId)).Nodup →
      rows.any (fun r => r.stpId == new.stpId) = true →
      ((rows.map (fun r => if r.stpId == new.stpId then updateStpRow r new else r)).countP
          (fun r => r.stpId == new.stpId && r.active)) = if new.active then 1 else 0 := by
  intro rows
  induction rows with
  | nil => simp
  | cons r rs ih =>
    intro hnd hany
    simp only [List.map_cons, List.countP_cons]
    by_cases hc : r.stpId = new.stpId
    · have htail : ∀ q ∈ rs, ¬ q.stpId = new.stpId := by
        intro q hq hqs
        have : r.stpId ∈ rs.map (fun x => x.stpId) := by
          rw [hc, ← hqs]
          exact List.mem_map_of_mem _ hq
        exact (List.nodup_cons.mp (by simpa using hnd)).1 this
      have hmap : rs.map (fun x => if x.stpId == new.stpId then updateStpRow x new else x) = rs := by
        conv_rhs => rw [← List.map_id rs]
        refine List.map_congr_left ?_
        intro q hq
        simp [htail q hq]
      have hzero : (rs.countP (fun x => x.stpId == new.stpId && x.active)) = 0 := by
        rw [List.countP_eq_zero]
        intro q hq
        simp [htail q hq]
      rw [hmap, hzero]
      simp [hc, updateStpRow_stpId, updateStpRow_active]
    · have hany' : rs.any (fun x => x.stpId == new.stpId) = true := by
        rcases List.any_eq_true.mp hany with ⟨q, hq, hqs⟩
        rcases List.mem_cons.mp hq with rfl | hq'
        · exact absurd (by simpa using hqs) hc
        · exact List.any_eq_true.mpr ⟨q, hq', hqs⟩
      have hnd' : (rs.map (fun x => x.stpId)).Nodup := (List.nodup_cons.mp (by simpa using hnd)).2
      rw [ih hnd' hany']
      simp [hc]

/-- After `processStp`, the table holds exactly one active row carrying the
fresh record's `stpId` when that record is active. -/
theorem processStp_countP_self (t : StpTable) (new : StpData)
    (hnd : (t.rows.map (fun r => r.stpId)).Nodup) :
    ((processStp t new).rows.countP (fun r => r.stpId == new.stpId && r.active)) =
      if new.active then 1 else 0 := by
  unfold processStp
  split <;> rename_i hc
  · exact countP_update_rows new t.rows hnd hc
  · have hzero : (t.rows.countP (fun r => r.stpId == new.stpId && r.active)) = 0 := by
      rw [List.countP_eq_zero]
      intro q hq
      rw [Bool.not_eq_true, List.any_eq_false] at hc
      simp [by simpa using hc q hq]
    simp only [List.countP_append, hzero, List.countP_cons, List.countP_nil]
    cases hna : new.active <;> simp [hna]

/-- `processStp` with a record of a different `stpId` does not change the
number of active rows of a given `stpId`. -/
theorem processStp_countP_other (t : StpTable) (y : StpData) (s : String)
    (hs : y.stpId ≠ s) :
    ((processStp t y).rows.countP (fun r => r.stpId == s && r.active)) =
      (t.rows.countP (fun r => r.stpId == s && r.active)) := by
  unfold processStp
  split <;> rename_i hc
  · rw [List.countP_map]
    refine List.countP_congr ?_
    intro r _
    by_cases hr : r.stpId = y.stpId
    · simp [Function.comp, hr, updateStpRow_stpId, hs]
    · simp [Function.comp, hr]
  · simp [List.countP_append, List.countP_cons, hs]

/-- The first loop of `update_stps` does not change the number of active rows
of an `stpId` that none of the remaining fresh records carries. -/
theorem foldl_processStp_countP_other (ys : List StpData) (s : String) :
    ∀ t : StpTable, (∀ y ∈ ys, y.stpId ≠ s) →
      ((ys.foldl processStp t).rows.countP (fun r => r.stpId == s && r.active)) =
        (t.rows.countP (fun r => r.stpId == s && r.active)) := by
  induction ys with
  | nil => exact fun t _ => rfl
  | cons y ys ih =>
    intro t hys
    rw [List.foldl_cons, ih (processStp t y) (fun z hz => hys z (List.mem_cons_of_mem y hz)),
      processStp_countP_other t y s (hys y (List.mem_cons_self y ys))]

/-- After the first loop of `update_stps`, every fresh record has exactly one
active row (the last record of each `stpId` wins; all records of a topology
parse are active). -/
theorem foldl_processStp_countP_mem (stps : List StpData) :
    ∀ t : StpTable, (t.rows.map (fun r => r.stpId)).Nodup →
      (∀ x ∈ stps, x.active = true) →
      ∀ x ∈ stps,
        ((stps.foldl processStp t).rows.countP (fun r => r.stpId == x.stpId && r.active)) = 1 := by
  induction stps with
  | nil => simp
  | cons y ys ih =>
    intro t hnd hact x hx
    rw [List.foldl_cons]
    rcases List.mem_cons.mp hx with rfl | hx'
    · by_cases hdup : ∃ z ∈ ys, z.stpId = x.stpId
      · obtain ⟨z, hz, hzs⟩ := hdup
        have h := ih (processStp t x) (processStp_nodup t x hnd)
          (fun w hw => hact w (List.mem_cons_of_mem x hw)) z hz
        rw [hzs] at h
        exact h
      · push_neg at hdup
        rw [foldl_processStp_countP_other ys x.stpId (processStp t x) hdup,
          processStp_countP_self t x hnd, hact x (List.mem_cons_self x ys)]
        simp
    · exact ih (processStp t y) (processStp_nodup t y hnd)
        (fun w hw => hact w (List.mem_cons_of_mem y hw)) x hx'

/-- The soft-delete pass does not change the number of active rows of any
`stpId` that is in the fresh list. -/
theorem deactivate_countP_mem (rows : List StpRow) (freshIds : List String) (s : String)
    (hs : s ∈ freshIds) :
    ((deactivateVanishedStps rows freshIds).countP (fun r => r.stpId == s && r.active)) =
      (rows.countP (fun r => r.stpId == s && r.active)) := by
  unfold deactivateVanishedStps
  rw [List.countP_map]
  refine List.countP_congr ?_
  intro r _
  by_cases hact : r.active = true
  · by_cases hin : r.stpId ∈ freshIds
    · simp [Function.comp, hact, hin]
    · have hne : ¬ r.stpId = s := fun h => hin (h ▸ hs)
      simp [Function.comp, hact, hin, hne]
  · simp [Function.comp, hact]

/-- After the soft-delete pass, every row whose `stpId` is not in the fresh
list is inactive. -/
theorem deactivate_inactive (rows : List StpRow) (freshIds : List String) :
    ∀ r ∈ deactivateVanishedStps rows freshIds, r.stpId ∉ freshIds → r.active = false := by
  intro r' hr' hnotin
  unfold deactivateVanishedStps at hr'
  rcases List.mem_map.mp hr' with ⟨r, _, heq⟩
  cases hact : r.active with
  | false =>
    simp [hact] at heq
    rw [← heq]
    exact hact
  | true =>
    by_cases hin : r.stpId ∈ freshIds
    · simp [hact, hin] at heq
      subst heq
      exact absurd hin hnotin
    · simp [hact, hin] at heq
      rw [← heq]

/-- The soft-delete pass keeps every row with its key and `stpId`. -/
theorem deactivate_preserves_rows (rows : List StpRow) (freshIds : List String) :
    ∀ r ∈ rows, ∃ q ∈ deactivateVanishedStps rows freshIds, q.id = r.id ∧ q.stpId = r.stpId := by
  intro r hr
  unfold deactivateVanishedStps
  refine ⟨_, List.mem_map_of_mem _ hr, ?_, ?_⟩ <;> dsimp only [] <;> split <;> rfl

/-- Claim C3: after a successful topology poll (`update_stps` applied to the
DDS snapshot), every STP of the snapshot has exactly one row with its `stpId`
and `active = true`; every row whose `stpId` is absent from the snapshot is
inactive (in particular every previously-active such row); and no row is ever
hard-deleted - every pre-poll row survives with its key and `stpId`. -/
theorem C3_stp_reconcile_soft_delete (t : StpTable) (stps : List StpData)
    (hnd : (t.rows.map (fun r => r.stpId)).Nodup)
    (hact : ∀ x ∈ stps, x.active = true) :
    (∀ x ∈ stps,
      ((update_stps t stps).rows.countP (fun r => r.stpId == x.stpId && r.active)) = 1) ∧
    (∀ r ∈ (update_stps t stps).rows,
      r.stpId ∉ stps.map (fun s => s.stpId) → r.active = false) ∧
    (∀ r ∈ t.rows, ∃ q ∈ (update_stps t stps).rows, q.id = r.id ∧ q.stpId = r.stpId) := by
  unfold update_stps
  refine ⟨?_, ?_, ?_⟩
  · intro x hx
    rw [deactivate_countP_mem _ _ _ (List.mem_map_of_mem _ hx)]
    exact foldl_processStp_countP_mem stps t hnd hact x hx
  · exact deactivate_inactive _ _
  · intro r hr
    obtain ⟨q, hq, hqid, hqstp⟩ := foldl_processStp_preserves_rows stps t r hr
    obtain ⟨p, hp, hpid, hpstp⟩ := deactivate_preserves_rows _ (stps.map (fun s => s.stpId)) q hq
    exact ⟨p, hp, by rw [hpid, hqid], by rw [hpstp, hqstp]⟩

/-- Witness for C3, spec scenario 5: a table with active STPs x and y polled
against the snapshot containing y and z ends with exactly one active row for y
and for z, and the x row soft-deleted. -/
theorem C3_stp_reconcile_soft_delete_witness :
    ((update_stps
        ⟨[⟨⟨"x", none, none, none, none, "100-200", some "X", true⟩, 1⟩,
          ⟨⟨"y", none, none, none, none, "100-200", some "Y", true⟩, 2⟩], 3⟩
        [⟨"y", none, none, none, none, "100-200", some "Y", true⟩,
         ⟨"z", none, none, none, none, "300", some "Z", true⟩]).rows.countP
      (fun r => r.stpId == "y" && r.active)) = 1 ∧
    ((update_stps
        ⟨[⟨⟨"x", none, none, none, none, "100-200", some "X", true⟩, 1⟩,
          ⟨⟨"y", none, none, none, none, "100-200", some "Y", true⟩, 2⟩], 3⟩
        [⟨"y", none, none, none, none, "100-200", some "Y", true⟩,
         ⟨"z", none, none, none, none, "300", some "Z", true⟩]).rows.countP
      (fun r => r.stpId == "z" && r.active)) = 1 ∧
    (⟨⟨"x", none, none, none, none, "100-200", some "X", false⟩, 1⟩ : StpRow).active = false := by
  have h := C3_stp_reconcile_soft_delete
    ⟨[⟨⟨"x", none, none, none, none, "100-200", some "X", true⟩, 1⟩,
      ⟨⟨"y", none, none, none, none, "100-200", some "Y", true⟩, 2⟩], 3⟩
    [⟨"y", none, none, none, none, "100-200", some "Y", true⟩,
     ⟨"z", none, none, none, none, "300", some "Z", true⟩]
    (by decide) (by decide)
  refine ⟨h.1 ⟨"y", none, none, none, none, "100-200", some "Y", true⟩ (by decide),
    h.1 ⟨"z", none, none, none, none, "300", some "Z", true⟩ (by decide), ?_⟩
  exact h.2.1 ⟨⟨"x", none, none, none, none, "100-200", some "X", false⟩, 1⟩
    (by decide) (by decide)

/-- Claim C7 (code bug, flagged by spec section 9): the reconcile pass does
emit one SDP per unordered pair - here exactly the pair of STPs 1 and 3 - but
the soft-delete statement filters on `stpAId = min(vanished pair)` only (the
Python `and` of two SQLAlchemy comparisons discards the second, itself
mistyped with `stpA` on both sides), so it also deactivates row 2, whose pair
(1,3) is present in the fresh set; the claim requires exactly the rows of
vanished pairs (only row 1, of pair (1,2)) to be deactivated. -/
theorem C7_sdp_soft_delete_bug :
    findSdpPairs
        [⟨⟨"a", some "a-in", some "a-out", some "c-out", some "c-in", "100", some "A", true⟩, 1⟩,
         ⟨⟨"b", none, none, none, none, "100", some "B", true⟩, 2⟩,
         ⟨⟨"c", some "c-in", some "c-out", some "a-out", some "a-in", "100", some "C", true⟩, 3⟩] =
      [(⟨⟨"a", some "a-in", some "a-out", some "c-out", some "c-in", "100", some "A", true⟩, 1⟩,
        ⟨⟨"c", some "c-in", some "c-out", some "a-out", some "a-in", "100", some "C", true⟩, 3⟩)] ∧
    (update_sdps
        ⟨[⟨⟨"a", some "a-in", some "a-out", some "c-out", some "c-in", "100", some "A", true⟩, 1⟩,
          ⟨⟨"b", none, none, none, none, "100", some "B", true⟩, 2⟩,
          ⟨⟨"c", some "c-in", some "c-out", some "a-out", some "a-in", "100", some "C", true⟩, 3⟩], 4⟩
        ⟨[⟨1, 1, 2, "100", some "stale", true⟩, ⟨2, 1, 3, "100", some "A <-> C", true⟩], 3⟩).rows =
      [⟨1, 1, 2, "100", some "stale", false⟩, ⟨2, 1, 3, "100", some "A <-> C", false⟩] := by
  constructor <;> rfl

/-- Claim C4 (code bug): on a network failure `nsi_util_get_xml` returns
`None`, `get_dds_documents` then returns the empty document dict instead of
raising, and the poll proceeds to reconcile against an empty snapshot -
soft-deleting every active STP - instead of aborting with the database
untouched; a decompression failure, by contrast, does abort before any
write. -/
theorem C4_network_error_not_aborted :
    nsi_poll_dds_job .connectionError
        ⟨[⟨⟨"x", none, none, none, none, "100-200", some "X", true⟩, 1⟩], 2⟩ ⟨[], 1⟩ =
      .ok (⟨[⟨⟨"x", none, none, none, none, "100-200", some "X", false⟩, 1⟩], 2⟩, ⟨[], 1⟩) ∧
    (⟨⟨"x", none, none, none, none, "100-200", some "X", false⟩, 1⟩ : StpRow) ≠
      ⟨⟨"x", none, none, none, none, "100-200", some "X", true⟩, 1⟩ ∧
    nsi_poll_dds_job
        (.content (.documents [⟨"vnd.ogf.nsi.topology.v2+xml", "doc-1", .corrupt⟩]))
        ⟨[⟨⟨"x", none, none, none, none, "100-200", some "X", true⟩, 1⟩], 2⟩ ⟨[], 1⟩ =
      .error .decompressionError := by
  refine ⟨by rfl, by decide, by rfl⟩

/-- Claim C6 counterexample: in the concrete reserve flow, `reservation_post`
commits the transition to `ConnectionReserveChecking` in transaction 1 with
the creation-time correlationId 1, and the correlationId 2 actually carried
by the outbound reserve is only persisted by the job's own later
transaction 2 - so the fresh correlationId is not persisted in the same
transaction as the state transition that authorised the send. -/
theorem C6_counterexample :
    (reservation_post ⟨0⟩ 1 1 11 12 100 200).2.2 =
      [.commit 1 ⟨1, 1, 0, none, 11, 12, 100, 200, .ConnectionReserveChecking⟩,
       .enqueue .nsi_send_reserve_job] ∧
    (nsi_send_job .nsi_send_reserve_job (reservation_post ⟨0⟩ 1 1 11 12 100 200).1 ⟨2⟩ 2).2.2 =
      [.commit 2 ⟨1, 2, 0, none, 11, 12, 100, 200, .ConnectionReserveChecking⟩,
       .send .nsi_send_reserve_job 2] ∧
    (2 : Nat) ≠ 1 := by
  refine ⟨by rfl, by rfl, by decide⟩

/-- Claim C6 as amended: every send job first mints a fresh correlationId -
distinct from the one the transition's transaction left on the row - and
persists it in a transaction of its own, immediately before the outbound call
that carries exactly that id; the reservation's state is not touched by that
transaction. -/
theorem C6_amended_fresh_correlation_per_job (k : JobKind) (r : ReservationRow)
    (g : UuidGen) (txn : Nat) (hfresh : r.correlationId < g.next) :
    (nsi_send_job k r g txn).2.2 =
      [.commit txn (nsi_send_job k r g txn).1,
       .send k ((nsi_send_job k r g txn).1).correlationId] ∧
    ((nsi_send_job k r g txn).1).correlationId = g.next ∧
    ((nsi_send_job k r g txn).1).correlationId ≠ r.correlationId ∧
    ((nsi_send_job k r g txn).1).state = r.state := by
  refine ⟨rfl, rfl, ?_, rfl⟩
  simp only [nsi_send_job, new_correlation_id_on_reservation]
  omega

/-- Witness for the amended C6 at a concrete job run. -/
theorem C6_amended_fresh_correlation_per_job_witness :
    (nsi_send_job .nsi_send_provision_job
        ⟨1, 3, 0, some 9, 11, 12, 100, 200, .ConnectionReserveCommitted⟩ ⟨4⟩ 7).2.2 =
      [.commit 7 ⟨1, 4, 0, some 9, 11, 12, 100, 200, .ConnectionReserveCommitted⟩,
       .send .nsi_send_provision_job 4] ∧
    (4 : Nat) ≠ 3 := by
  have h := C6_amended_fresh_correlation_per_job .nsi_send_provision_job
    ⟨1, 3, 0, some 9, 11, 12, 100, 200, .ConnectionReserveCommitted⟩ ⟨4⟩ 7 (by decide)
  exact ⟨h.1, by decide⟩

/-- Membership after a sorted insertion. -/
theorem sortedInsert_mem (x m : Nat) (l : List Nat) :
    m ∈ sortedInsert x l ↔ m = x ∨ m ∈ l := by
  induction l with
  | nil => simp [sortedInsert]
  | cons y ys ih =>
    simp only [sortedInsert]
    by_cases h1 : x < y
    · simp [h1, List.mem_cons]
      try tauto
    · by_cases h2 : x = y
      · subst h2
        simp [h1, List.mem_cons]
        try tauto
      · simp [h1, h2, List.mem_cons, ih]
        try tauto

/-- The head of a sorted insertion is the inserted value or the old head. -/
theorem sortedInsert_head? (x : Nat) (l : List Nat) :
    (sortedInsert x l).head? = some x ∨ (sortedInsert x l).head? = l.head? := by
  cases l with
  | nil => left; rfl
  | cons y ys =>
    simp only [sortedInsert]
    by_cases h1 : x < y
    · left; simp [h1]
    · by_cases h2 : x = y
      · right; simp [h1, h2]
      · right; simp [h1, h2]

/-- Sorted insertion keeps the list strictly sorted. -/
theorem sortedInsert_chain' (x : Nat) (l : List Nat) (h : l.Chain' (· < ·)) :
    (sortedInsert x l).Chain' (· < ·) := by
  induction l with
  | nil => simp [sortedInsert]
  | cons y ys ih =>
    simp only [sortedInsert]
    by_cases h1 : x < y
    · simp only [if_pos h1]
      exact List.chain'_cons.mpr ⟨h1, h⟩
    · by_cases h2 : x = y
      · simp only [if_neg h1, if_pos h2]
        exact h
      · simp only [if_neg h1, if_neg h2]
        have hys : ys.Chain' (· < ·) := (List.chain'_cons'.mp h).2
        rw [List.chain'_cons']
        refine ⟨?_, ih hys⟩
        intro z hz
        rcases sortedInsert_head? x ys with hh | hh
        · rw [hh] at hz
          cases hz
          omega
        · rw [hh] at hz
          exact (List.chain'_cons'.mp h).1 z hz

/-- Membership after inserting a whole list. -/
theorem foldl_sortedInsert_mem (l2 : List Nat) :
    ∀ (l : List Nat) (m : Nat),
      (m ∈ l2.foldl (fun acc v => sortedInsert v acc) l ↔ m ∈ l ∨ m ∈ l2) := by
  induction l2 with
  | nil => simp
  | cons a as ih =>
    intro l m
    rw [List.foldl_cons, ih]
    rw [sortedInsert_mem]
    simp only [List.mem_cons]
    tauto

/-- Inserting a whole list keeps the accumulator strictly sorted. -/
theorem foldl_sortedInsert_chain' (l2 : List Nat) :
    ∀ l : List Nat, l.Chain' (· < ·) →
      (l2.foldl (fun acc v => sortedInsert v acc) l).Chain' (· < ·) := by
  induction l2 with
  | nil => exact fun l h => h
  | cons a as ih => exact fun l h => ih _ (sortedInsert_chain' a l h)

/-- Membership after expanding one intermediate-format entry. -/
theorem expandRange_ok_mem (acc r er : List Nat) (h : expandRange acc r = .ok er) (m : Nat) :
    m ∈ er ↔ m ∈ acc ∨ vlansSpecMem r m := by
  match r with
  | [] => exact absurd h (by simp [expandRange])
  | [a] =>
    simp only [expandRange, Except.ok.injEq] at h
    subst h
    rw [sortedInsert_mem]
    simp [vlansSpecMem]
    tauto
  | [a, b] =>
    simp only [expandRange, Except.ok.injEq] at h
    subst h
    have hiff : ∀ k : Nat, (a ≤ k ∧ k < a + (b + 1 - a)) ↔ (a ≤ k ∧ k ≤ b) := by omega
    rw [foldl_sortedInsert_mem]
    simp only [vlansSpecMem, List.mem_range'_1, hiff]
  | a :: b :: c :: rest => exact absurd h (by simp [expandRange])

/-- Expanding one entry keeps the accumulator strictly sorted. -/
theorem expandRange_ok_chain' (acc r er : List Nat) (h : expandRange acc r = .ok er)
    (hacc : acc.Chain' (· < ·)) : er.Chain' (· < ·) := by
  match r with
  | [] => exact absurd h (by simp [expandRange])
  | [a] =>
    simp only [expandRange, Except.ok.injEq] at h
    subst h
    exact sortedInsert_chain' a acc hacc
  | [a, b] =>
    simp only [expandRange, Except.ok.injEq] at h
    subst h
    exact foldl_sortedInsert_chain' _ acc hacc
  | a :: b :: c :: rest => exact absurd h (by simp [expandRange])

/-- The loop of `expand_ranges`: a successful run returns a strictly sorted
list holding the accumulator plus exactly the denoted VLAN ids. -/
theorem expandRangesGo_spec (vlans : List (List Nat)) :
    ∀ acc er : List Nat, expandRangesGo acc vlans = .ok er → acc.Chain' (· < ·) →
      (er.Chain' (· < ·) ∧ ∀ m, (m ∈ er ↔ m ∈ acc ∨ ∃ r ∈ vlans, vlansSpecMem r m)) := by
  induction vlans with
  | nil =>
    intro acc er h hacc
    simp only [expandRangesGo, Except.ok.injEq] at h
    subst h
    exact ⟨hacc, by simp⟩
  | cons r rs ih =>
    intro acc er h hacc
    simp only [expandRangesGo] at h
    cases hstep : expandRange acc r with
    | error e => rw [hstep] at h; exact absurd h (by simp)
    | ok acc1 =>
      rw [hstep] at h
      obtain ⟨hc, hmem⟩ := ih acc1 er h (expandRange_ok_chain' acc r acc1 hstep hacc)
      refine ⟨hc, fun m => ?_⟩
      rw [hmem m, expandRange_ok_mem acc r acc1 hstep m, List.exists_mem_cons_iff]
      tauto

/-- `expand_ranges` returns a strictly sorted list of exactly the denoted
VLAN ids. -/
theorem expand_ranges_spec (vlans : List (List Nat)) (er : List Nat)
    (h : expand_ranges vlans = .ok er) :
    er.Chain' (· < ·) ∧ ∀ m, (m ∈ er ↔ ∃ r ∈ vlans, vlansSpecMem r m) := by
  obtain ⟨hc, hmem⟩ := expandRangesGo_spec vlans [] er h List.chain'_nil
  exact ⟨hc, fun m => by rw [hmem m]; simp⟩

/-- The VLAN ids of a cons cell of ranges. -/
theorem vlanValues_cons (p : Nat × Nat) (rest : List (Nat × Nat)) :
    vlanValues ⟨p :: rest⟩ = List.range' p.1 (p.2 + 1 - p.1) ++ vlanValues ⟨rest⟩ := by
  simp [vlanValues]

/-- Membership in a `VlanRanges` coincides with membership in its value
list, whatever the stored ranges are. -/
theorem vlanMem_iff_mem_values (rs : List (Nat × Nat)) (m : Nat) :
    vlanMem ⟨rs⟩ m = true ↔ m ∈ vlanValues ⟨rs⟩ := by
  simp only [vlanMem, vlanValues, List.any_eq_true, Bool.and_eq_true, decide_eq_true_eq,
    List.mem_flatten, List.mem_map]
  constructor
  · rintro ⟨p, hp, h1, h2⟩
    exact ⟨List.range' p.1 (p.2 + 1 - p.1), ⟨p, hp, rfl⟩, List.mem_range'_1.mpr (by omega)⟩
  · rintro ⟨l, ⟨p, hp, rfl⟩, hm⟩
    have hb := List.mem_range'_1.mp hm
    exact ⟨p, hp, by omega, by omega⟩

/-- The run-collecting loop of `to_ranges` on a strictly sorted tail: its
output reproduces the values, consists of nonempty gap-separated ranges, and
starts with a range anchored at `start`. -/
theorem toRangesGo_spec (l : List Nat) :
    ∀ start cur : Nat, start ≤ cur → (cur :: l).Chain' (· < ·) →
      (vlanValues ⟨toRangesGo start cur l⟩ = List.range' start (cur + 1 - start) ++ l) ∧
      (∀ p ∈ toRangesGo start cur l, p.1 ≤ p.2) ∧
      ((toRangesGo start cur l).Chain' (fun p q => p.2 + 1 < q.1)) ∧
      (∃ e rest, toRangesGo start cur l = (start, e) :: rest) := by
  induction l with
  | nil =>
    intro start cur hsc _
    refine ⟨?_, ?_, ?_, cur, [], rfl⟩
    · simp [toRangesGo, vlanValues]
    · intro p hp
      simp only [toRangesGo, List.mem_singleton] at hp
      subst hp
      exact hsc
    · simp [toRangesGo]
  | cons y ys ih =>
    intro start cur hsc hchain
    have hcy : cur < y := (List.chain'_cons.mp hchain).1
    have hys : (y :: ys).Chain' (· < ·) := (List.chain'_cons.mp hchain).2
    simp only [toRangesGo]
    by_cases hy : y = cur + 1
    · simp only [if_pos hy]
      obtain ⟨hv, hp, hc, hh⟩ := ih start y (by omega) hys
      refine ⟨?_, hp, hc, ?_⟩
      · rw [hv]
        have h1 : y + 1 - start = (cur + 1 - start) + 1 := by omega
        have h2 : List.range' start ((cur + 1 - start) + 1) =
            List.range' start (cur + 1 - start) ++ [start + 1 * (cur + 1 - start)] :=
          List.range'_concat start (cur + 1 - start)
        have h3 : start + 1 * (cur + 1 - start) = y := by omega
        rw [h1, h2, h3]
        simp
      · obtain ⟨e, rest, hrest⟩ := hh
        subst hy
        exact ⟨e, rest, hrest⟩
    · simp only [if_neg hy]
      obtain ⟨hv, hp, hc, hh⟩ := ih y y (le_refl y) hys
      obtain ⟨e, rest, hrest⟩ := hh
      refine ⟨?_, ?_, ?_, cur, (y, e) :: rest, by rw [hrest]⟩
      · rw [vlanValues_cons, hv]
        have h1 : List.range' y (y + 1 - y) = [y] := by
          have : y + 1 - y = 1 := by omega
          rw [this]
          rfl
        rw [h1]
        simp
      · intro p hp'
        rcases List.mem_cons.mp hp' with rfl | hmem
        · exact hsc
        · exact hp p hmem
      · rw [hrest]
        rw [hrest] at hc
        exact List.chain'_cons.mpr ⟨by omega, hc⟩

/-- `to_ranges` of a strictly sorted list reproduces exactly its values. -/
theorem to_ranges_values (l : List Nat) (hl : l.Chain' (· < ·)) :
    vlanValues ⟨to_ranges l⟩ = l := by
  cases l with
  | nil => rfl
  | cons x xs =>
    obtain ⟨hv, _, _, _⟩ := toRangesGo_spec xs x x (le_refl x) hl
    simp only [to_ranges]
    rw [hv]
    have : x + 1 - x = 1 := by omega
    rw [this]
    rfl

/-- `to_ranges` of a strictly sorted list is canonical. -/
theorem to_ranges_canonical (l : List Nat) (hl : l.Chain' (· < ·)) :
    vlanCanonical ⟨to_ranges l⟩ := by
  cases l with
  | nil => exact ⟨by simp [to_ranges], by simp [to_ranges]⟩
  | cons x xs =>
    obtain ⟨_, hp, hc, _⟩ := toRangesGo_spec xs x x (le_refl x) hl
    exact ⟨hp, hc⟩

/-- The run loop swallows a whole block of consecutive values in one go. -/
theorem toRangesGo_run (k : Nat) :
    ∀ (start cur : Nat) (rest : List Nat),
      toRangesGo start cur (List.range' (cur + 1) k ++ rest) =
        toRangesGo start (cur + k) rest := by
  induction k with
  | zero => intro start cur rest; simp
  | succ n ih =>
    intro start cur rest
    have hstep : ∀ t : List Nat,
        toRangesGo start cur ((cur + 1) :: t) = toRangesGo start (cur + 1) t := by
      intro t
      simp [toRangesGo]
    rw [List.range'_succ, List.cons_append, hstep, ih]
    congr 1
    omega

/-- `to_ranges` rebuilds a canonical range list from its values. -/
theorem to_ranges_valuesOf (rs : List (Nat × Nat)) (hv : vlanCanonical ⟨rs⟩) :
    to_ranges (vlanValues ⟨rs⟩) = rs := by
  induction rs with
  | nil => rfl
  | cons p rest ih =>
    obtain ⟨hne, hgap⟩ := hv
    have hp : p.1 ≤ p.2 := hne p (List.mem_cons_self p rest)
    have hrest : vlanCanonical ⟨rest⟩ :=
      ⟨fun q hq => hne q (List.mem_cons_of_mem p hq), (List.chain'_cons'.mp hgap).2⟩
    rw [vlanValues_cons]
    have h1 : p.2 + 1 - p.1 = (p.2 - p.1) + 1 := by omega
    rw [h1, List.range'_succ]
    simp only [List.cons_append, to_ranges]
    have h2 : toRangesGo p.1 p.1 (List.range' (p.1 + 1) (p.2 - p.1) ++ vlanValues ⟨rest⟩) =
        toRangesGo p.1 (p.1 + (p.2 - p.1)) (vlanValues ⟨rest⟩) :=
      toRangesGo_run (p.2 - p.1) p.1 p.1 (vlanValues ⟨rest⟩)
    rw [h2]
    have h3 : p.1 + (p.2 - p.1) = p.2 := by omega
    rw [h3]
    cases hr : rest with
    | nil =>
      simp [vlanValues, toRangesGo]
    | cons q rest2 =>
      have hq : q.1 ≤ q.2 := hne q (by rw [hr]; exact List.mem_cons_of_mem p (List.mem_cons_self q rest2))
      have hgapq : p.2 + 1 < q.1 := by
        have := (List.chain'_cons'.mp hgap).1
        rw [hr] at this
        exact this q rfl
      rw [← hr]
      have hval : vlanValues ⟨rest⟩ = q.1 :: (List.range' (q.1 + 1) (q.2 - q.1) ++ vlanValues ⟨rest2⟩) := by
        rw [hr, vlanValues_cons]
        have : q.2 + 1 - q.1 = (q.2 - q.1) + 1 := by omega
        rw [this, List.range'_succ]
        simp
      rw [hval]
      simp only [toRangesGo]
      rw [if_neg (by omega)]
      have htail : toRangesGo q.1 q.1 (List.range' (q.1 + 1) (q.2 - q.1) ++ vlanValues ⟨rest2⟩) =
          to_ranges (vlanValues ⟨rest⟩) := by
        rw [hval]
        rfl
      rw [htail, ih hrest]

/-- In a strictly sorted list every element is at most the last one. -/
theorem chain'_le_getLastD (l : List Nat) (hl : l.Chain' (· < ·)) :
    ∀ m ∈ l, m ≤ l.getLastD 0 := by
  induction l using List.reverseRecOn with
  | nil => simp
  | append_singleton init last _ih =>
    intro m hm
    rw [List.getLastD_concat]
    have hp : (init ++ [last]).Pairwise (· < ·) := List.chain'_iff_pairwise.mp hl
    rcases List.mem_append.mp hm with h | h
    · have := (List.pairwise_append.mp hp).2.2 m h last (by simp)
      omega
    · simp only [List.mem_singleton] at h
      omega

/-- The last element of a nonempty list is one of its elements. -/
theorem getLastD_mem (l : List Nat) (hne : l ≠ []) : l.getLastD 0 ∈ l := by
  induction l using List.reverseRecOn with
  | nil => exact absurd rfl hne
  | append_singleton init last _ih =>
    rw [List.getLastD_concat]
    simp

/-- A successful `VlanRanges` construction yields a canonical, in-bounds
object holding exactly the denoted VLAN ids. -/
theorem vlanRangesOfVlans_spec (vlans : List (List Nat)) (v : VlanRanges)
    (h : vlanRangesOfVlans vlans = .ok v) :
    vlanCanonical v ∧ (∀ m ∈ vlanValues v, m ≤ 4096) ∧
      (∀ m, (vlanMem v m = true ↔ ∃ r ∈ vlans, vlansSpecMem r m)) := by
  unfold vlanRangesOfVlans at h
  cases her : expand_ranges vlans with
  | error e =>
    rw [her] at h
    simp [Bind.bind, Except.bind] at h
  | ok er =>
    rw [her] at h
    simp only [Bind.bind, Except.bind] at h
    obtain ⟨hchain, hmem⟩ := expand_ranges_spec vlans er her
    split at h
    · simp at h
    · rename_i hcond
      simp only [Except.ok.injEq] at h
      subst h
      push_neg at hcond
      have hvals : vlanValues ⟨to_ranges er⟩ = er := to_ranges_values er hchain
      refine ⟨to_ranges_canonical er hchain, ?_, ?_⟩
      · intro m hm
        rw [hvals] at hm
        by_cases hne : er = []
        · rw [hne] at hm
          cases hm
        · have hlast := (hcond hne).2
          have := chain'_le_getLastD er hchain m hm
          omega
      · intro m
        rw [vlanMem_iff_mem_values, hvals, hmem m]

/-- The loop of `expand_ranges` cannot fail when every entry has one or two
elements. -/
theorem expandRangesGo_ok (vlans : List (List Nat)) :
    ∀ acc, (∀ r ∈ vlans, r.length = 1 ∨ r.length = 2) →
      ∃ er, expandRangesGo acc vlans = .ok er := by
  induction vlans with
  | nil => exact fun acc _ => ⟨acc, rfl⟩
  | cons r rs ih =>
    intro acc hlen
    have h1 := hlen r (List.mem_cons_self r rs)
    obtain ⟨acc1, hacc1⟩ : ∃ acc1, expandRange acc r = .ok acc1 := by
      rcases r with _ | ⟨a, _ | ⟨b, _ | ⟨c, t⟩⟩⟩
      · simp at h1
      · exact ⟨_, rfl⟩
      · exact ⟨_, rfl⟩
      · simp only [List.length_cons] at h1
        omega
    obtain ⟨er, her⟩ := ih acc1 (fun q hq => hlen q (List.mem_cons_of_mem r hq))
    refine ⟨er, ?_⟩
    simp only [expandRangesGo, hacc1]
    exact her

/-- The `VlanRanges` construction succeeds whenever the entries are
well-formed and every denoted id is in bounds. -/
theorem vlanRangesOfVlans_ok (vlans : List (List Nat))
    (hlen : ∀ r ∈ vlans, r.length = 1 ∨ r.length = 2)
    (hbound : ∀ m, (∃ r ∈ vlans, vlansSpecMem r m) → m ≤ 4096) :
    ∃ v, vlanRangesOfVlans vlans = .ok v := by
  obtain ⟨er, her⟩ := expandRangesGo_ok vlans [] hlen
  have hspec := expand_ranges_spec vlans er her
  unfold vlanRangesOfVlans
  rw [show expand_ranges vlans = .ok er from her]
  simp only [Bind.bind, Except.bind]
  have hcond : ¬(er ≠ [] ∧ ¬(0 ≤ er.headD 0 ∧ er.getLastD 0 ≤ 4096)) := by
    rintro ⟨hne, hnot⟩
    apply hnot
    refine ⟨Nat.zero_le _, ?_⟩
    exact hbound _ ((hspec.2 _).mp (getLastD_mem er hne))
  rw [if_neg hcond]
  exact ⟨_, rfl⟩

/-- A list of singleton entries denotes exactly the list's elements. -/
theorem vlansSpecMem_singletons (l : List Nat) (m : Nat) :
    (∃ r ∈ l.map (fun x => [x]), vlansSpecMem r m) ↔ m ∈ l := by
  constructor
  · rintro ⟨r, hr, hm⟩
    obtain ⟨x, hx, rfl⟩ := List.mem_map.mp hr
    simp only [vlansSpecMem] at hm
    subst hm
    exact hx
  · intro hm
    exact ⟨[m], List.mem_map_of_mem _ hm, rfl⟩

/-- `__sub__` with an `int`: with a member it returns the set without that
member (still in bounds); with a non-member it raises `KeyError`. -/
theorem vlanRangesSubInt_spec (v : VlanRanges) (n : Nat)
    (hbound : ∀ m ∈ vlanValues v, m ≤ 4096) :
    (vlanMem v n = true →
      ∃ u, vlanRangesSubInt v n = .ok u ∧ (∀ m ∈ vlanValues u, m ≤ 4096) ∧
        ∀ m, (vlanMem u m = true ↔ vlanMem v m = true ∧ m ≠ n)) ∧
    (vlanMem v n = false → vlanRangesSubInt v n = .error .keyError) := by
  constructor
  · intro hmem
    unfold vlanRangesSubInt
    rw [if_pos hmem]
    have hlen : ∀ r ∈ ((vlanValues v).filter (fun x => x ≠ n)).map (fun x => [x]),
        r.length = 1 ∨ r.length = 2 := by
      intro r hr
      obtain ⟨x, _, rfl⟩ := List.mem_map.mp hr
      left
      rfl
    have hspecb : ∀ m,
        (∃ r ∈ ((vlanValues v).filter (fun x => x ≠ n)).map (fun x => [x]), vlansSpecMem r m) →
          m ≤ 4096 := by
      intro m hm
      rw [vlansSpecMem_singletons] at hm
      exact hbound m (List.mem_of_mem_filter hm)
    obtain ⟨u, hu⟩ := vlanRangesOfVlans_ok _ hlen hspecb
    obtain ⟨_, hub, humem⟩ := vlanRangesOfVlans_spec _ u hu
    refine ⟨u, hu, hub, fun m => ?_⟩
    rw [humem m, vlansSpecMem_singletons, List.mem_filter]
    rw [show (vlanMem v m = true) ↔ m ∈ vlanValues v from vlanMem_iff_mem_values v.ranges m]
    simp
  · intro hmem
    unfold vlanRangesSubInt
    rw [if_neg (by simp [hmem])]

/-- `__sub__` with a set right operand is total and removes exactly the
members of the right operand. -/
theorem vlanRangesSubSet_spec (v w : VlanRanges)
    (hbound : ∀ m ∈ vlanValues v, m ≤ 4096) :
    ∃ u, vlanRangesSubSet v w = .ok u ∧
      ∀ m, (vlanMem u m = true ↔ vlanMem v m = true ∧ vlanMem w m = false) := by
  unfold vlanRangesSubSet
  have hlen : ∀ r ∈ ((vlanValues v).filter (fun x => !vlanMem w x)).map (fun x => [x]),
      r.length = 1 ∨ r.length = 2 := by
    intro r hr
    obtain ⟨x, _, rfl⟩ := List.mem_map.mp hr
    left
    rfl
  have hspecb : ∀ m,
      (∃ r ∈ ((vlanValues v).filter (fun x => !vlanMem w x)).map (fun x => [x]),
        vlansSpecMem r m) → m ≤ 4096 := by
    intro m hm
    rw [vlansSpecMem_singletons] at hm
    exact hbound m (List.mem_of_mem_filter hm)
  obtain ⟨u, hu⟩ := vlanRangesOfVlans_ok _ hlen hspecb
  obtain ⟨_, _, humem⟩ := vlanRangesOfVlans_spec _ u hu
  refine ⟨u, hu, fun m => ?_⟩
  rw [humem m, vlansSpecMem_singletons, List.mem_filter]
  rw [show (vlanMem v m = true) ↔ m ∈ vlanValues v from vlanMem_iff_mem_values v.ranges m]
  simp

/-- The guarded subtraction loop of `free_vlan_ranges` never raises and ends
with exactly the start set minus the iterated VLANs. -/
theorem freeVlanFold_spec (l : List Nat) :
    ∀ free : VlanRanges, (∀ m ∈ vlanValues free, m ≤ 4096) →
      ∃ f, freeVlanFold free l = .ok f ∧ (∀ m ∈ vlanValues f, m ≤ 4096) ∧
        ∀ m, (vlanMem f m = true ↔ vlanMem free m = true ∧ m ∉ l) := by
  induction l with
  | nil =>
    intro free hb
    exact ⟨free, rfl, hb, by simp⟩
  | cons vlan rest ih =>
    intro free hb
    simp only [freeVlanFold]
    by_cases hv : vlanMem free vlan = true
    · rw [if_pos hv]
      obtain ⟨u, hu, hub, humem⟩ := (vlanRangesSubInt_spec free vlan hb).1 hv
      rw [hu]
      obtain ⟨f, hf, hfb, hfmem⟩ := ih u hub
      refine ⟨f, hf, hfb, fun m => ?_⟩
      rw [hfmem m, humem m]
      simp only [List.mem_cons]
      tauto
    · rw [if_neg hv]
      obtain ⟨f, hf, hfb, hfmem⟩ := ih free hb
      refine ⟨f, hf, hfb, fun m => ?_⟩
      rw [hfmem m]
      simp only [List.mem_cons]
      constructor
      · rintro ⟨h1, h2⟩
        refine ⟨h1, ?_⟩
        rintro (rfl | hm)
        · exact hv h1
        · exact h2 hm
      · rintro ⟨h1, h2⟩
        exact ⟨h1, fun hm => h2 (Or.inr hm)⟩

/-- A `VlanRanges` parsed from a string is canonical and in bounds. -/
theorem vlanRangesOfString_spec (s : List Char) (v : VlanRanges)
    (h : vlanRangesOfString s = .ok v) :
    vlanCanonical v ∧ (∀ m ∈ vlanValues v, m ≤ 4096) := by
  unfold vlanRangesOfString at h
  split at h
  · simp only [Except.ok.injEq] at h
    subst h
    exact ⟨⟨by simp, by simp⟩, by simp [vlanValues]⟩
  · cases hm : (s.splitOn ',').mapM parsePiece with
    | none =>
      rw [hm] at h
      simp at h
    | some vlans =>
      rw [hm] at h
      obtain ⟨hc, hb, _⟩ := vlanRangesOfVlans_spec vlans v h
      exact ⟨hc, hb⟩

/-- Claim C10: subtracting a single VLAN id from a `VlanRanges` is defined
exactly on members - returning the set without that id - and raises the
`KeyError` of `set.remove` on a non-member instead of returning the set
unchanged; subtracting a set is total; and the membership-guarded loop of
`free_vlan_ranges` therefore never raises. -/
theorem C10_sub_int_requires_membership (v w : VlanRanges) (n : Nat) (l : List Nat)
    (hbound : ∀ m ∈ vlanValues v, m ≤ 4096) :
    (vlanMem v n = true →
      ∃ u, vlanRangesSubInt v n = .ok u ∧
        ∀ m, (vlanMem u m = true ↔ vlanMem v m = true ∧ m ≠ n)) ∧
    (vlanMem v n = false → vlanRangesSubInt v n = .error .keyError) ∧
    (∃ u, vlanRangesSubSet v w = .ok u ∧
      ∀ m, (vlanMem u m = true ↔ vlanMem v m = true ∧ vlanMem w m = false)) ∧
    (∃ f, freeVlanFold v l = .ok f) := by
  obtain ⟨h1, h2⟩ := vlanRangesSubInt_spec v n hbound
  refine ⟨fun hm => ?_, h2, vlanRangesSubSet_spec v w hbound, ?_⟩
  · obtain ⟨u, hu, _, humem⟩ := h1 hm
    exact ⟨u, hu, humem⟩
  · obtain ⟨f, hf, _, _⟩ := freeVlanFold_spec l v hbound
    exact ⟨f, hf⟩

/-- Witness for C10: on the range 1-10, subtracting the member 5 succeeds
and subtracting the non-member 15 raises `KeyError`. -/
theorem C10_sub_int_requires_membership_witness :
    (∃ u, vlanRangesSubInt ⟨[(1, 10)]⟩ 5 = .ok u ∧
      ∀ m, (vlanMem u m = true ↔ vlanMem ⟨[(1, 10)]⟩ m = true ∧ m ≠ 5)) ∧
    vlanRangesSubInt ⟨[(1, 10)]⟩ 15 = .error .keyError := by
  have ha := C10_sub_int_requires_membership ⟨[(1, 10)]⟩ ⟨[]⟩ 5 [] (by decide)
  have hb := C10_sub_int_requires_membership ⟨[(1, 10)]⟩ ⟨[]⟩ 15 [] (by decide)
  exact ⟨ha.1 (by decide), hb.2.1 (by decide)⟩

/-- Claim C5: `active_state_values` is every declared state except New,
ReserveFailed, ReserveTimeout, Terminated and Deleted; the free set of an STP
is its `vlanRange` minus the source VLANs of active-state reservations using
it as source and the destination VLANs of those using it as destination; and
reservation creation rejects with a 422 whenever the requested source or
destination VLAN is not in the corresponding STP's free set, the rejection
carrying, for each offending side, an item listing that side's free set. -/
theorem C5_free_vlans_and_rejection (stps : List StpRow) (db : List ReservationRow)
    (stpId sourceSTP destSTP sourceVlan destVlan : Nat) (st : StpRow)
    (all fs fd : VlanRanges) :
    (∀ s : ConnectionState, s ∈ active_state_values ↔
        s ∉ ([.ConnectionNew, .ConnectionReserveFailed, .ConnectionReserveTimeout,
              .ConnectionTerminated, .ConnectionDeleted] : List ConnectionState)) ∧
    (stps.find? (fun s => s.id == stpId) = some st →
      vlanRangesOfString st.vlanRange.toList = .ok all →
      (∀ m ∈ in_use_vlans db stpId, m ≤ 4096) →
      ∃ f, free_vlan_ranges stps db stpId = .ok f ∧
        ∀ m, (vlanMem f m = true ↔ (vlanMem all m = true ∧ m ∉ in_use_vlans db stpId))) ∧
    (free_vlan_ranges stps db sourceSTP = .ok fs →
      free_vlan_ranges stps db destSTP = .ok fd →
      (vlanMem fs sourceVlan = false ∨ vlanMem fd destVlan = false) →
      ∃ e, free_vlan_on_stp stps db sourceSTP destSTP sourceVlan destVlan = .ok (.error e) ∧
        e.status = 422 ∧
        (vlanMem fs sourceVlan = false →
          (⟨"invalid_vlan", "sourceVlan",
            "free VLANs: ".toList ++ vlanRangesStr fs⟩ : FormErrorItem) ∈ e.form) ∧
        (vlanMem fd destVlan = false →
          (⟨"invalid_vlan", "destVlan",
            "free VLANs: ".toList ++ vlanRangesStr fd⟩ : FormErrorItem) ∈ e.form)) := by
  refine ⟨by decide, ?_, ?_⟩
  · intro hfind hparse hdb
    have hall : all_vlan_ranges stps stpId = .ok all := by
      unfold all_vlan_ranges
      rw [hfind]
      exact hparse
    have hlen : ∀ r ∈ (in_use_vlans db stpId).map (fun x => [x]),
        r.length = 1 ∨ r.length = 2 := by
      intro r hr
      obtain ⟨x, _, rfl⟩ := List.mem_map.mp hr
      left
      rfl
    have hsb : ∀ m, (∃ r ∈ (in_use_vlans db stpId).map (fun x => [x]), vlansSpecMem r m) →
        m ≤ 4096 := by
      intro m hm
      rw [vlansSpecMem_singletons] at hm
      exact hdb m hm
    obtain ⟨w, hw⟩ := vlanRangesOfVlans_ok _ hlen hsb
    obtain ⟨_, _, hwmem⟩ := vlanRangesOfVlans_spec _ w hw
    have hws : ∀ m, m ∈ vlanValues w ↔ m ∈ in_use_vlans db stpId := by
      intro m
      rw [← vlanMem_iff_mem_values w.ranges m]
      rw [show (vlanMem ⟨w.ranges⟩ m = true) ↔ _ from hwmem m, vlansSpecMem_singletons]
    have hab := (vlanRangesOfString_spec _ all hparse).2
    obtain ⟨f, hf, _, hfmem⟩ := freeVlanFold_spec (vlanValues w) all hab
    refine ⟨f, ?_, fun m => ?_⟩
    · unfold free_vlan_ranges
      rw [hall]
      simp only [Bind.bind, Except.bind]
      rw [show in_use_vlan_ranges db stpId = .ok w from hw]
      exact hf
    · rw [hfmem m, hws m]
  · intro hsrc hdst hor
    unfold free_vlan_on_stp
    rw [hsrc]
    simp only [Bind.bind, Except.bind]
    rw [hdst]
    cases hs : vlanMem fs sourceVlan with
    | true =>
      cases hd : vlanMem fd destVlan with
      | true =>
        rcases hor with h | h
        · simp [hs] at h
        · simp [hd] at h
      | false =>
        refine ⟨⟨422, [⟨"invalid_vlan", "destVlan",
            "free VLANs: ".toList ++ vlanRangesStr fd⟩]⟩, ?_, rfl, ?_, ?_⟩
        · simp [hs, hd, Pure.pure, Except.pure]
        · intro h
          simp [hs] at h
        · intro _
          simp
    | false =>
      cases hd : vlanMem fd destVlan with
      | true =>
        refine ⟨⟨422, [⟨"invalid_vlan", "sourceVlan",
            "free VLANs: ".toList ++ vlanRangesStr fs⟩]⟩, ?_, rfl, ?_, ?_⟩
        · simp [hs, hd, Pure.pure, Except.pure]
        · intro _
          simp
        · intro h
          simp [hd] at h
      | false =>
        refine ⟨⟨422, [⟨"invalid_vlan", "sourceVlan",
            "free VLANs: ".toList ++ vlanRangesStr fs⟩,
          ⟨"invalid_vlan", "destVlan",
            "free VLANs: ".toList ++ vlanRangesStr fd⟩]⟩, ?_, rfl, ?_, ?_⟩
        · simp [hs, hd, Pure.pure, Except.pure]
        · intro _
          simp
        · intro _
          simp

/-- Witness for C5, spec scenario 2: an STP whose free set is 100-200; a
request with source VLAN 99 is rejected with 422 listing the free set on the
sourceVlan item, and a request whose source VLAN 150 is free but whose
destination VLAN 99 is not is rejected with 422 on the destVlan item. -/
theorem C5_free_vlans_and_rejection_witness :
    (∃ f, free_vlan_ranges
        [⟨⟨"a.example:2024:p1", none, none, none, none, "100-200", some "A", true⟩, 1⟩] [] 1 =
          .ok f ∧
      ∀ m, (vlanMem f m = true ↔ (vlanMem ⟨[(100, 200)]⟩ m = true ∧
        m ∉ in_use_vlans [] 1))) ∧
    (∃ e, free_vlan_on_stp
        [⟨⟨"a.example:2024:p1", none, none, none, none, "100-200", some "A", true⟩, 1⟩] []
        1 1 99 150 = .ok (.error e) ∧ e.status = 422 ∧
      (⟨"invalid_vlan", "sourceVlan",
        "free VLANs: ".toList ++ vlanRangesStr ⟨[(100, 200)]⟩⟩ : FormErrorItem) ∈ e.form) ∧
    (∃ e, free_vlan_on_stp
        [⟨⟨"a.example:2024:p1", none, none, none, none, "100-200", some "A", true⟩, 1⟩] []
        1 1 150 99 = .ok (.error e) ∧ e.status = 422 ∧
      (⟨"invalid_vlan", "destVlan",
        "free VLANs: ".toList ++ vlanRangesStr ⟨[(100, 200)]⟩⟩ : FormErrorItem) ∈ e.form) := by
  have h := C5_free_vlans_and_rejection
    [⟨⟨"a.example:2024:p1", none, none, none, none, "100-200", some "A", true⟩, 1⟩] []
    1 1 1 99 150
    ⟨⟨"a.example:2024:p1", none, none, none, none, "100-200", some "A", true⟩, 1⟩
    ⟨[(100, 200)]⟩ ⟨[(100, 200)]⟩ ⟨[(100, 200)]⟩
  have h2 := C5_free_vlans_and_rejection
    [⟨⟨"a.example:2024:p1", none, none, none, none, "100-200", some "A", true⟩, 1⟩] []
    1 1 1 150 99
    ⟨⟨"a.example:2024:p1", none, none, none, none, "100-200", some "A", true⟩, 1⟩
    ⟨[(100, 200)]⟩ ⟨[(100, 200)]⟩ ⟨[(100, 200)]⟩
  obtain ⟨e1, he1, hst1, hsrc1, _⟩ := h.2.2 (by rfl) (by rfl) (Or.inl (by decide))
  obtain ⟨e2, he2, hst2, _, hdst2⟩ := h2.2.2 (by rfl) (by rfl) (Or.inr (by decide))
  exact ⟨h.2.1 (by rfl) (by rfl) (by decide),
    ⟨e1, he1, hst1, hsrc1 (by decide)⟩, ⟨e2, he2, hst2, hdst2 (by decide)⟩⟩

/-- The ten decimal digit characters: digits, with the right value, distinct
from every separator the VLAN grammar uses, and not whitespace. -/
theorem digitCharFacts (k : Nat) (hk : k < 10) :
    (Char.ofNat (48 + k)).isDigit = true ∧ digitVal (Char.ofNat (48 + k)) = k ∧
    Char.ofNat (48 + k) ≠ '_' ∧ Char.ofNat (48 + k) ≠ '-' ∧ Char.ofNat (48 + k) ≠ ',' ∧
    Char.ofNat (48 + k) ≠ '+' ∧ isPySpace (Char.ofNat (48 + k)) = false := by
  interval_cases k <;>
    exact ⟨by decide, by decide, by decide, by decide, by decide, by decide, by decide⟩

/-- `strip` of a string without surrounding whitespace is the string
itself. -/
theorem stripChars_eq_self (s : List Char) (h : ∀ c ∈ s, isPySpace c = false) :
    stripChars s = s := by
  unfold stripChars
  have h1 : s.dropWhile isPySpace = s := by
    cases s with
    | nil => rfl
    | cons c cs => rw [List.dropWhile_cons_of_neg (by simp [h c (List.mem_cons_self c cs)])]
  rw [h1]
  have h2 : s.reverse.dropWhile isPySpace = s.reverse := by
    cases hs : s.reverse with
    | nil => rfl
    | cons c cs =>
      have hc : c ∈ s := by
        rw [← List.mem_reverse, hs]
        exact List.mem_cons_self c cs
      rw [List.dropWhile_cons_of_neg (by simp [h c hc])]
  rw [h2, List.reverse_reverse]

/-- One-step unfolding of `natCharsAux` at positive fuel. -/
theorem natCharsAux_succ (fuel n : Nat) :
    natCharsAux (fuel + 1) n =
      if n < 10 then [Char.ofNat (48 + n)]
      else natCharsAux fuel (n / 10) ++ [Char.ofNat (48 + n % 10)] := rfl

/-- `pyDigitsGo` consumes one plain digit. -/
theorem pyDigitsGo_digit (acc : Nat) (c : Char) (rest : List Char)
    (hu : c ≠ '_') (hd : c.isDigit = true) :
    pyDigitsGo acc (c :: rest) = pyDigitsGo (acc * 10 + digitVal c) rest := by
  conv_lhs => unfold pyDigitsGo
  rw [if_neg hu, if_pos hd]

/-- Every character of a rendered natural is a decimal digit character. -/
theorem natCharsAux_chars (fuel : Nat) :
    ∀ n, n < fuel → ∀ c ∈ natCharsAux fuel n, ∃ k, k < 10 ∧ c = Char.ofNat (48 + k) := by
  induction fuel with
  | zero => intro n h; omega
  | succ fuel ih =>
    intro n h c hc
    rw [natCharsAux_succ] at hc
    by_cases h10 : n < 10
    · rw [if_pos h10] at hc
      simp only [List.mem_singleton] at hc
      exact ⟨n, h10, hc⟩
    · rw [if_neg h10] at hc
      simp only [List.mem_append, List.mem_singleton] at hc
      rcases hc with hc | hc
      · have hdiv : n / 10 < fuel := by
          have h0 : 0 < n := by omega
          have := Nat.div_lt_self h0 (by omega : 1 < 10)
          omega
        exact ih (n / 10) hdiv c hc
      · exact ⟨n % 10, Nat.mod_lt _ (by omega), hc⟩

/-- A rendered natural is never the empty string. -/
theorem natCharsAux_ne_nil (fuel n : Nat) (h : n < fuel) : natCharsAux fuel n ≠ [] := by
  cases fuel with
  | zero => omega
  | succ fuel =>
    rw [natCharsAux_succ]
    by_cases h10 : n < 10
    · rw [if_pos h10]
      simp
    · rw [if_neg h10]
      simp

/-- Parsing a rendered natural embedded in a longer digit string accumulates
its value positionally. -/
theorem natCharsAux_parse (fuel : Nat) :
    ∀ n acc suffix, n < fuel →
      pyDigitsGo acc (natCharsAux fuel n ++ suffix) =
        pyDigitsGo (acc * 10 ^ (natCharsAux fuel n).length + n) suffix := by
  induction fuel with
  | zero => intro n _ _ h; omega
  | succ fuel ih =>
    intro n acc suffix h
    rw [natCharsAux_succ]
    by_cases h10 : n < 10
    · rw [if_pos h10]
      obtain ⟨hd, hv, hu, _⟩ := digitCharFacts n h10
      rw [List.singleton_append, pyDigitsGo_digit acc _ suffix hu hd, hv]
      simp [pow_one]
    · rw [if_neg h10]
      have hdiv : n / 10 < fuel := by
        have h0 : 0 < n := by omega
        have := Nat.div_lt_self h0 (by omega : 1 < 10)
        omega
      rw [List.append_assoc, ih (n / 10) acc _ hdiv]
      obtain ⟨hd, hv, hu, _⟩ := digitCharFacts (n % 10) (Nat.mod_lt _ (by omega))
      rw [List.singleton_append, pyDigitsGo_digit _ _ suffix hu hd, hv]
      have hlen : (natCharsAux fuel (n / 10) ++ [Char.ofNat (48 + n % 10)]).length =
          (natCharsAux fuel (n / 10)).length + 1 := by simp
      rw [hlen, pow_succ]
      have harith : (acc * 10 ^ (natCharsAux fuel (n / 10)).length + n / 10) * 10 + n % 10 =
          acc * (10 ^ (natCharsAux fuel (n / 10)).length * 10) + n := by
        have hK : acc * (10 ^ (natCharsAux fuel (n / 10)).length * 10) =
            acc * 10 ^ (natCharsAux fuel (n / 10)).length * 10 := by ring
        rw [hK]
        omega
      rw [harith]

/-- Every character of `natChars n` is a digit character. -/
theorem natChars_chars (n : Nat) : ∀ c ∈ natChars n, ∃ k, k < 10 ∧ c = Char.ofNat (48 + k) :=
  natCharsAux_chars (n + 1) n (by omega)

/-- `natChars n` is nonempty. -/
theorem natChars_ne_nil (n : Nat) : natChars n ≠ [] :=
  natCharsAux_ne_nil (n + 1) n (by omega)

/-- Python `int()` of a rendered natural gives the natural back. -/
theorem pyInt_natChars (n : Nat) : pyInt (natChars n) = some n := by
  have hchars := natChars_chars n
  have hnospace : ∀ c ∈ natChars n, isPySpace c = false := by
    intro c hc
    obtain ⟨k, hk, rfl⟩ := hchars c hc
    exact (digitCharFacts k hk).2.2.2.2.2.2
  have hstrip : stripChars (natChars n) = natChars n := stripChars_eq_self _ hnospace
  have h0 : pyDigitsGo 0 (natChars n) = some n := by
    have hp := natCharsAux_parse (n + 1) n 0 [] (by omega)
    rw [List.append_nil] at hp
    rw [show natChars n = natCharsAux (n + 1) n from rfl, hp]
    simp [pyDigitsGo]
  unfold pyInt
  rw [hstrip]
  cases hl : natChars n with
  | nil => exact absurd hl (natChars_ne_nil n)
  | cons c rest =>
    have hc : c ∈ natChars n := by
      rw [hl]
      exact List.mem_cons_self c rest
    obtain ⟨k, hk, hck⟩ := hchars c hc
    obtain ⟨hd, _, hu, _, _, hp, _⟩ := hck ▸ digitCharFacts k hk
    rw [hl] at h0
    rw [pyDigitsGo_digit 0 c rest hu hd] at h0
    simp only [Nat.zero_mul, Nat.zero_add] at h0
    show (match if c = '+' then rest else c :: rest with
      | c :: rest => if c.isDigit then pyDigitsGo (digitVal c) rest else none
      | [] => none) = some n
    rw [if_neg hp]
    show (if c.isDigit then pyDigitsGo (digitVal c) rest else none) = some n
    rw [if_pos hd]
    exact h0

/-- `intercalate` of a single piece is that piece. -/
theorem intercalate_single_eq (sep x : List Char) : List.intercalate sep [x] = x := by
  simp [List.intercalate]

/-- `intercalate` peels off the first piece and one separator. -/
theorem intercalate_cons_cons_eq (sep x y : List Char) (t : List (List Char)) :
    List.intercalate sep (x :: y :: t) = x ++ sep ++ List.intercalate sep (y :: t) := by
  simp [List.intercalate, List.intersperse_cons_cons]

/-- Every character of an `intercalate` comes from the separator or from one
of the pieces. -/
theorem mem_intercalate_sep (sep : List Char) (ls : List (List Char)) (c : Char) :
    c ∈ List.intercalate sep ls → c ∈ sep ∨ ∃ l ∈ ls, c ∈ l := by
  induction ls with
  | nil => intro h; simp [List.intercalate] at h
  | cons x xs ih =>
    cases xs with
    | nil =>
      intro h
      rw [intercalate_single_eq] at h
      exact Or.inr ⟨x, List.mem_cons_self x [], h⟩
    | cons y ys =>
      intro h
      rw [intercalate_cons_cons_eq] at h
      rcases List.mem_append.mp h with h | h
      · rcases List.mem_append.mp h with h | h
        · exact Or.inr ⟨x, List.mem_cons_self _ _, h⟩
        · exact Or.inl h
      · rcases ih h with h | ⟨l, hl, hcl⟩
        · exact Or.inl h
        · exact Or.inr ⟨l, List.mem_cons_of_mem x hl, hcl⟩

/-- An `intercalate` with a nonempty first piece is nonempty. -/
theorem intercalate_cons_ne_nil (sep x : List Char) (xs : List (List Char)) (hx : x ≠ []) :
    List.intercalate sep (x :: xs) ≠ [] := by
  cases xs with
  | nil =>
    rw [intercalate_single_eq]
    exact hx
  | cons y ys =>
    rw [intercalate_cons_cons_eq]
    cases x with
    | nil => exact absurd rfl hx
    | cons c cs => simp

/-- Characters of a rendered natural are never a comma, a dash or
whitespace. -/
theorem natChars_no_special (n : Nat) :
    ∀ c ∈ natChars n, c ≠ ',' ∧ c ≠ '-' ∧ isPySpace c = false := by
  intro c hc
  obtain ⟨k, hk, rfl⟩ := natChars_chars n c hc
  obtain ⟨_, _, _, hdash, hcomma, _, hspace⟩ := digitCharFacts k hk
  exact ⟨hcomma, hdash, hspace⟩

/-- A rendered single VLAN parses back to its value. -/
theorem parsePiece_single (a : Nat) : parsePiece (natChars a) = some [a] := by
  unfold parsePiece
  have hstrip : stripChars (natChars a) = natChars a :=
    stripChars_eq_self _ (fun c hc => (natChars_no_special a c hc).2.2)
  rw [hstrip]
  have hsplit : (natChars a).splitOn '-' = [natChars a] := by
    show (natChars a).splitOnP (fun c => c == '-') = [natChars a]
    exact List.splitOnP_eq_single _ _ (fun c hc => by
      simp only [beq_iff_eq]
      exact (natChars_no_special a c hc).2.1)
  rw [hsplit]
  show List.mapM pyInt [natChars a] = some [a]
  rw [List.mapM_cons, pyInt_natChars, List.mapM_nil]
  rfl

/-- A rendered inclusive range parses back to its two bounds. -/
theorem parsePiece_pair (a b : Nat) :
    parsePiece (natChars a ++ '-' :: natChars b) = some [a, b] := by
  unfold parsePiece
  have hnos : ∀ c ∈ natChars a ++ '-' :: natChars b, isPySpace c = false := by
    intro c hc
    rcases List.mem_append.mp hc with h | h
    · exact (natChars_no_special a c h).2.2
    · rcases List.mem_cons.mp h with h | h
      · subst h
        decide
      · exact (natChars_no_special b c h).2.2
  rw [stripChars_eq_self _ hnos]
  have hsplit : (natChars a ++ '-' :: natChars b).splitOn '-' = [natChars a, natChars b] := by
    show (natChars a ++ '-' :: natChars b).splitOnP (fun c => c == '-') = [natChars a, natChars b]
    rw [List.splitOnP_first _ _ (fun c hc => by
        simp only [beq_iff_eq]
        exact (natChars_no_special a c hc).2.1) '-' (by simp) (natChars b)]
    rw [List.splitOnP_eq_single _ _ (fun c hc => by
        simp only [beq_iff_eq]
        exact (natChars_no_special b c hc).2.1)]
  rw [hsplit]
  show List.mapM pyInt [natChars a, natChars b] = some [a, b]
  rw [List.mapM_cons, pyInt_natChars, List.mapM_cons, pyInt_natChars, List.mapM_nil]
  rfl

/-- `mapM` over a mapped list succeeds pointwise. -/
theorem mapM_map_some {α β γ : Type} (g : α → β) (f : β → Option γ) (h : α → γ) :
    ∀ l : List α, (∀ x ∈ l, f (g x) = some (h x)) → (l.map g).mapM f = some (l.map h) := by
  intro l
  induction l with
  | nil => intro _; rfl
  | cons x xs ih =>
    intro hall
    rw [List.map_cons, List.mapM_cons, hall x (List.mem_cons_self x xs),
      ih (fun y hy => hall y (List.mem_cons_of_mem x hy))]
    rfl

/-- The rendered pieces of a range list parse back to the corresponding
intermediate-format entries. -/
theorem renderPieces_parse (rs : List (Nat × Nat)) :
    ((rs.map (fun q => if q.1 = q.2 then natChars q.1
        else natChars q.1 ++ '-' :: natChars q.2)).mapM parsePiece)
      = some (rs.map (fun q => if q.1 = q.2 then [q.1] else [q.1, q.2])) := by
  apply mapM_map_some
  intro q _
  by_cases h : q.1 = q.2
  · simp only [if_pos h]
    exact parsePiece_single q.1
  · simp only [if_neg h]
    exact parsePiece_pair q.1 q.2

/-- The entries rebuilt from a range list denote exactly its values. -/
theorem renderEntries_mem (rs : List (Nat × Nat)) (m : Nat) :
    (∃ r ∈ rs.map (fun q => if q.1 = q.2 then [q.1] else [q.1, q.2]), vlansSpecMem r m)
      ↔ m ∈ vlanValues ⟨rs⟩ := by
  rw [← vlanMem_iff_mem_values]
  simp only [List.mem_map, vlanMem, List.any_eq_true, Bool.and_eq_true, decide_eq_true_eq]
  constructor
  · rintro ⟨r, ⟨q, hq, rfl⟩, hm⟩
    by_cases h : q.1 = q.2
    · simp only [if_pos h, vlansSpecMem] at hm
      exact ⟨q, hq, by omega, by omega⟩
    · simp only [if_neg h, vlansSpecMem] at hm
      exact ⟨q, hq, hm.1, hm.2⟩
  · rintro ⟨q, hq, h1, h2⟩
    refine ⟨if q.1 = q.2 then [q.1] else [q.1, q.2], ⟨q, hq, rfl⟩, ?_⟩
    by_cases h : q.1 = q.2
    · simp only [if_pos h, vlansSpecMem]
      omega
    · simp only [if_neg h, vlansSpecMem]
      exact ⟨h1, h2⟩

/-- Characters of one rendered piece are never a comma and never
whitespace. -/
theorem renderPiece_chars (q : Nat × Nat) (c : Char)
    (hc : c ∈ (if q.1 = q.2 then natChars q.1 else natChars q.1 ++ '-' :: natChars q.2)) :
    c ≠ ',' ∧ isPySpace c = false := by
  by_cases h : q.1 = q.2
  · rw [if_pos h] at hc
    obtain ⟨h1, _, h3⟩ := natChars_no_special q.1 c hc
    exact ⟨h1, h3⟩
  · rw [if_neg h] at hc
    rcases List.mem_append.mp hc with h' | h'
    · obtain ⟨h1, _, h3⟩ := natChars_no_special q.1 c h'
      exact ⟨h1, h3⟩
    · rcases List.mem_cons.mp h' with h' | h'
      · subst h'
        exact ⟨by decide, by decide⟩
      · obtain ⟨h1, _, h3⟩ := natChars_no_special q.2 c h'
        exact ⟨h1, h3⟩

/-- A rendered piece is never empty. -/
theorem renderPiece_ne_nil (q : Nat × Nat) :
    (if q.1 = q.2 then natChars q.1 else natChars q.1 ++ '-' :: natChars q.2) ≠ [] := by
  by_cases h : q.1 = q.2
  · rw [if_pos h]
    exact natChars_ne_nil q.1
  · rw [if_neg h]
    intro hcontra
    exact natChars_ne_nil q.1 (List.append_eq_nil.mp hcontra).1

/-- The value list of a canonical `VlanRanges` is strictly ascending. -/
theorem vlanValues_chain' (rs : List (Nat × Nat)) (hv : vlanCanonical ⟨rs⟩) :
    (vlanValues ⟨rs⟩).Chain' (· < ·) := by
  induction rs with
  | nil => simp [vlanValues]
  | cons p rest ih =>
    obtain ⟨hne, hgap⟩ := hv
    have hp : p.1 ≤ p.2 := hne p (List.mem_cons_self p rest)
    have hrest : vlanCanonical ⟨rest⟩ :=
      ⟨fun q hq => hne q (List.mem_cons_of_mem p hq), (List.chain'_cons'.mp hgap).2⟩
    rw [vlanValues_cons, List.chain'_append]
    refine ⟨?_, ih hrest, ?_⟩
    · exact List.chain'_iff_pairwise.mpr (List.pairwise_lt_range' p.1 (p.2 + 1 - p.1))
    · intro x hx y hy
      have hk : p.2 + 1 - p.1 = (p.2 - p.1) + 1 := by omega
      rw [hk, List.range'_concat, List.getLast?_concat] at hx
      simp only [Option.mem_def, Option.some.injEq] at hx
      cases hr : rest with
      | nil =>
        rw [hr] at hy
        simp [vlanValues] at hy
      | cons q rest2 =>
        have hgapq : p.2 + 1 < q.1 := by
          have := (List.chain'_cons'.mp hgap).1
          rw [hr] at this
          exact this q rfl
        rw [hr, vlanValues_cons] at hy
        have hk2 : q.2 + 1 - q.1 = (q.2 - q.1) + 1 := by
          have hq : q.1 ≤ q.2 :=
            hne q (by rw [hr]; exact List.mem_cons_of_mem p (List.mem_cons_self q rest2))
          omega
        rw [hk2, List.range'_succ, List.cons_append] at hy
        simp only [List.head?_cons, Option.mem_def, Option.some.injEq] at hy
        omega

/-- Two strictly ascending lists with the same members are equal. -/
theorem chain'_lt_ext (l₁ l₂ : List Nat) (h₁ : l₁.Chain' (· < ·)) (h₂ : l₂.Chain' (· < ·))
    (h : ∀ m, m ∈ l₁ ↔ m ∈ l₂) : l₁ = l₂ := by
  have hs₁ : l₁.Sorted (· < ·) := List.chain'_iff_pairwise.mp h₁
  have hs₂ : l₂.Sorted (· < ·) := List.chain'_iff_pairwise.mp h₂
  haveI : IsAntisymm Nat (· < ·) := ⟨fun a b h1 h2 => absurd (lt_trans h1 h2) (lt_irrefl a)⟩
  exact List.eq_of_perm_of_sorted ((List.perm_ext_iff_of_nodup hs₁.nodup hs₂.nodup).mpr h) hs₁ hs₂

/-- Parsing the canonical rendering of a canonical in-bounds `VlanRanges`
gives back the same object. -/
theorem parse_vlanRangesStr (rs : List (Nat × Nat)) (hc : vlanCanonical ⟨rs⟩)
    (hb : ∀ m ∈ vlanValues ⟨rs⟩, m ≤ 4096) :
    vlanRangesOfString (vlanRangesStr ⟨rs⟩) = .ok ⟨rs⟩ := by
  cases rs with
  | nil => rfl
  | cons p rest =>
    have hr : ∀ q ∈ p :: rest, q.1 ≤ q.2 := hc.1
    have hpchars : ∀ l ∈ (p :: rest).map (fun q => if q.1 = q.2 then natChars q.1
        else natChars q.1 ++ '-' :: natChars q.2), ∀ c ∈ l, c ≠ ',' ∧ isPySpace c = false := by
      intro l hl c hcl
      obtain ⟨q, _, rfl⟩ := List.mem_map.mp hl
      exact renderPiece_chars q c hcl
    have hnosp : ∀ c ∈ vlanRangesStr ⟨p :: rest⟩, isPySpace c = false := by
      intro c hcs
      unfold vlanRangesStr at hcs
      rcases mem_intercalate_sep [','] _ c hcs with h | ⟨l, hl, hcl⟩
      · simp only [List.mem_singleton] at h
        subst h
        decide
      · exact (hpchars l hl c hcl).2
    have hstrip : stripChars (vlanRangesStr ⟨p :: rest⟩) = vlanRangesStr ⟨p :: rest⟩ :=
      stripChars_eq_self _ hnosp
    have hne : vlanRangesStr ⟨p :: rest⟩ ≠ [] := by
      unfold vlanRangesStr
      rw [List.map_cons]
      exact intercalate_cons_ne_nil [','] _ _ (renderPiece_ne_nil p)
    have hsplit : (vlanRangesStr ⟨p :: rest⟩).splitOn ',' =
        (p :: rest).map (fun q => if q.1 = q.2 then natChars q.1
          else natChars q.1 ++ '-' :: natChars q.2) := by
      unfold vlanRangesStr
      exact List.splitOn_intercalate _ ','
        (fun l hl hmem => (hpchars l hl ',' hmem).1 rfl) (by simp)
    have hlen : ∀ r ∈ (p :: rest).map (fun q => if q.1 = q.2 then [q.1] else [q.1, q.2]),
        r.length = 1 ∨ r.length = 2 := by
      intro r hrm
      obtain ⟨q, _, rfl⟩ := List.mem_map.mp hrm
      by_cases h : q.1 = q.2
      · simp [h]
      · simp [h]
    obtain ⟨er, her⟩ := expandRangesGo_ok _ [] hlen
    obtain ⟨herchain, hermem⟩ := expand_ranges_spec _ er her
    have hermem' : ∀ m, m ∈ er ↔ m ∈ vlanValues ⟨p :: rest⟩ := by
      intro m
      rw [hermem m]
      exact renderEntries_mem (p :: rest) m
    have hereq : er = vlanValues ⟨p :: rest⟩ :=
      chain'_lt_ext er _ herchain (vlanValues_chain' (p :: rest) hc) hermem'
    unfold vlanRangesOfString
    rw [hstrip, if_neg hne, hsplit, renderPieces_parse]
    show vlanRangesOfVlans ((p :: rest).map (fun q => if q.1 = q.2 then [q.1] else [q.1, q.2]))
      = .ok ⟨p :: rest⟩
    unfold vlanRangesOfVlans
    rw [show expand_ranges ((p :: rest).map (fun q => if q.1 = q.2 then [q.1] else [q.1, q.2]))
      = .ok er from her]
    simp only [Bind.bind, Except.bind]
    have hcond : ¬(er ≠ [] ∧ ¬(0 ≤ er.headD 0 ∧ er.getLastD 0 ≤ 4096)) := by
      rintro ⟨hne', hnot⟩
      apply hnot
      refine ⟨Nat.zero_le _, ?_⟩
      apply hb
      rw [← hereq]
      exact getLastD_mem er hne'
    rw [if_neg hcond, hereq, to_ranges_valuesOf (p :: rest) hc]

/-- Claim C9: a string accepted by the `VlanRanges` parser, once rendered to
the canonical string of the parsed object and parsed again, yields exactly
the same `VlanRanges` - the same set of VLAN ids. -/
theorem C9_parse_render_roundtrip (s : List Char) (v : VlanRanges)
    (h : vlanRangesOfString s = .ok v) :
    vlanRangesOfString (vlanRangesStr v) = .ok v := by
  obtain ⟨hc, hb⟩ := vlanRangesOfString_spec s v h
  obtain ⟨rs⟩ := v
  exact parse_vlanRangesStr rs hc hb

/-- Witness for C9 on the docstring example: `"1,2,3,4,5-10,8"` parses to the
range 1-10, renders to `"1-10"`, and that string parses back to it. -/
theorem C9_parse_render_roundtrip_witness :
    vlanRangesOfString ("1,2,3,4,5-10,8".toList) = .ok ⟨[(1, 10)]⟩ ∧
    vlanRangesOfString (vlanRangesStr ⟨[(1, 10)]⟩) = .ok ⟨[(1, 10)]⟩ :=
  ⟨by rfl, C9_parse_render_roundtrip ("1,2,3,4,5-10,8".toList) ⟨[(1, 10)]⟩ (by rfl)⟩
